import Mathlib

/-!
# loopback-boot: the bootstrapper (`lib/bootstrapper.js`)

A shallow embedding of the plugin registry (`use`, `getPlugins`,
`getExtensions`), of the phase engine (`run`), of the constructor and of
`addPhases` of `lib/bootstrapper.js`, followed by the properties proved about
them.

Conventions of the embedding:

* a JavaScript string that is used as a path is the list of its characters
  (`JSString`); phase names are only ever used as property keys and stay
  `String`;
* JavaScript values the engine only tests for truthiness are `Value`;
* handler methods are arbitrary JavaScript functions: they are embedded as
  state transformers over a world state `σ` that return a description of what
  the call did (`Effect`);
* asynchronous completion is embedded by its result: the arguments a Node
  style callback is eventually invoked with, or `never`;
* the plugin modules `lib/plugins/*` are a parameter of the constructor (the
  module loader), and `mergePhaseNameLists` of `lib/utils.js` is modelled from
  the spec.
-/

namespace LoopbackBoot

/-! ## JavaScript strings and values -/

/-- A JavaScript string, as the sequence of its characters. -/
abbrev JSString := List Char

/-- The path separator `'/'`. -/
def sep : Char := '/'

/-- `String.prototype.indexOf` searching from position `k`: the worker of
`indexOf`; `s` is the part of the string from position `k` on. -/
def indexOfFrom (pat : JSString) : JSString → Nat → Int
  | [], k => if pat = [] then (k : Int) else -1
  | c :: s, k => if pat.isPrefixOf (c :: s) then (k : Int) else indexOfFrom pat s (k + 1)

/-- `s.indexOf(pat)`: the least position at which `pat` occurs in `s`, or
`-1` when it does not occur. -/
def indexOf (s pat : JSString) : Int := indexOfFrom pat s 0

/-- `s.substring(start)`: the characters of `s` from position `start` on. -/
def substring (s : JSString) (start : Nat) : JSString := s.drop start

/-- The values of JavaScript, as far as the engine can tell them apart: it
only tests them for truthiness. `object` stands for every object (errors,
arrays, functions, promises), identified by a reference. -/
inductive Value where
  | undefined
  | null
  | bool (b : Bool)
  | number (n : Int)
  | nan
  | string (s : String)
  | object (ref : Nat)
  deriving DecidableEq, Repr

/-- JavaScript truthiness (`ToBoolean`). -/
def Value.truthy : Value → Bool
  | .undefined => false
  | .null => false
  | .bool b => b
  | .number n => n != 0
  | .nan => false
  | .string s => s != ""
  | .object _ => true

/-! ## Handlers -/

/-- The way a promise or thenable settles, if it does. -/
inductive Settlement where
  | fulfilled (value : Value)
  | rejected (reason : Value)
  | pending
  deriving DecidableEq, Repr

/-- The value a phase method returns, seen through the test of line 159,
`result && typeof result.then === 'function'`, and through the chain of lines
160-165, `result.then(...).catch(...)`: a value that is no thenable; a
thenable on which that chain can be built, as on a promise (its `then` returns
an object with a `catch` method), together with the way it settles; or a
thenable on which building the chain throws `e` at once, because its `then`
throws `e` or because what its `then` returns has no `catch` method, `e` then
being the `TypeError` of the call of `catch`. -/
inductive Returned where
  | plain (value : Value)
  | thenable (settles : Settlement)
  | unchainable (e : Value)
  deriving DecidableEq, Repr

/-- What one call of a phase method does, as far as the engine observes it:
it throws `e` synchronously, or it returns `result` and calls the callback it
was given as its second argument with `callback = some (err, data)` (at some
time, once), or never calls it (`callback = none`). A call completes once at
most: a method that calls back and then throws, or a thenable that settles
after building the chain on it has thrown, is not described. -/
inductive Effect where
  | throws (e : Value)
  | returns (result : Returned) (callback : Option (Value × Value))
  deriving DecidableEq, Repr

/-- The context object of a run (`context`): a reference standing for the
object itself (`none` for the object `{}` that `run` creates at line 143 when
the caller passes no context) and its `phases` property (`none` when the
property is absent; an array, also the empty one, is truthy). What handlers
read from and write to the object is part of the world state. -/
structure Context where
  ref : Option Nat
  phases : Option (List String)
  deriving DecidableEq, Repr

/-- A phase method `handler[phase]`: a function with its declared parameter
count (`Function.prototype.length`) and its body, run on the context in the
current world state. -/
structure Method (σ : Type) where
  length : Nat
  call : Context → σ → Effect × σ

/-- The member `handler[phase]` of a handler object. -/
inductive Member (σ : Type) where
  | absent
  | notCallable (value : Value)
  | function (method : Method σ)

/-- A handler object: the lookup of its members by name. -/
structure Handler (σ : Type) where
  member : String → Member σ

/-! ## The registry -/

/-- A registration `{ path: path, handler: handler }` (lines 75-78). -/
structure Plugin (σ : Type) where
  path : JSString
  handler : Handler σ

/-- The options object of the engine (`this.options`), restricted to the
properties `run` reads and writes. A property is `none` when it is absent. -/
structure Options where
  appRootDir : Option String
  appConfigRootDir : Option String
  env : Option String
  rootDir : Option String
  deriving DecidableEq, Repr

/-- The ambient process: `process.cwd()` and `process.env.NODE_ENV`. -/
structure Process where
  cwd : String
  nodeEnv : Option String
  deriving DecidableEq, Repr

/-- The engine: `this.plugins`, `this.options` and `this.phases`. -/
structure Bootstrapper (σ : Type) where
  plugins : List (Plugin σ)
  options : Options
  phases : List String

/-- Lines 74-80, `Bootstrapper.prototype.use`: the engine after the call. The
call has no `return` statement and no failing operation. -/
def Bootstrapper.use {σ : Type} (self : Bootstrapper σ) (path : JSString)
    (handler : Handler σ) : Bootstrapper σ :=
  let plugin : Plugin σ := { path := path, handler := handler }
  { self with plugins := self.plugins ++ [plugin] }

/-- Lines 88-90 and 102-104: `if (path[path.length - 1] !== '/') path = path + '/'`.
For the empty string `path[-1]` is `undefined`, which differs from `'/'`. -/
def withTrailingSep (path : JSString) : JSString :=
  if path.getLast? ≠ some sep then path ++ [sep] else path

/-- Lines 87-94, `Bootstrapper.prototype.getPlugins`. -/
def Bootstrapper.getPlugins {σ : Type} (self : Bootstrapper σ) (path : JSString) :
    List (Plugin σ) :=
  let path := withTrailingSep path
  self.plugins.filter (fun p => indexOf p.path path == 0)

/-- Lines 101-110, `Bootstrapper.prototype.getExtensions`. The filter keeps
`p` when `name && name.indexOf('/') === -1` is truthy: `name` is a non-empty
string and holds no `'/'`. -/
def Bootstrapper.getExtensions {σ : Type} (self : Bootstrapper σ) (path : JSString) :
    List (Plugin σ) :=
  let path := withTrailingSep path
  self.plugins.filter (fun p =>
    if indexOf p.path path == -1 then false
    else
      let name := substring p.path path.length
      name != [] && indexOf name [sep] == -1)

/-! ## The phase engine -/

/-- The arguments a Node style callback `function(err, data)` is invoked
with, or `never` when it is not invoked at all. An argument that is not passed
is `undefined`. -/
inductive Completion where
  | invoked (err : Value) (data : Value)
  | never
  deriving DecidableEq, Repr

/-- Lines 13-23, `createPromiseCallback`: the state in which the promise
`cb.promise` ends up when `cb` is invoked as described by the completion
(`if (err) return reject(err); return resolve(data);`). -/
def createPromiseCallback : Completion → Settlement
  | .invoked err data => if err.truthy then .rejected err else .fulfilled data
  | .never => .pending

/-- The function `eachSeries(coll, iteratee, callback)` of the `async` package
(required at line 2; a dependency, not part of this repository), after its
documentation: the iteratee is run on one item after the other, each one after
the previous one has called its callback; when an iteratee passes an error
(a truthy first argument) to its callback, no further item is processed and
`callback(err)` is invoked; when all items are done, `callback(null)` is
invoked. The final callback receives the error only, never a result. The
result is the invocation of `callback`, or `never` when an iteratee never
calls back. -/
def eachSeries {α ω : Type} (iteratee : α → ω → Completion × ω) :
    List α → ω → Completion × ω
  | [], w => (.invoked .null .undefined, w)
  | x :: rest, w =>
    match iteratee x w with
    | (.invoked err _, w1) =>
      if err.truthy then (.invoked err .undefined, w1) else eachSeries iteratee rest w1
    | (.never, w1) => (.never, w1)

/-- One call of a phase method made by `run`, as observed: the registration
and the phase, the context passed as first argument, whether the callback was
passed as second argument (line 155) or not (line 157), and what the call
did. -/
structure Invocation (σ : Type) where
  plugin : Plugin σ
  phase : String
  context : Context
  withCallback : Bool
  effect : Effect

/-- The world during a run: the state handlers act on and the calls of
phase methods made so far, oldest first. -/
structure World (σ : Type) where
  state : σ
  trace : List (Invocation σ)

/-- Lines 153-176: how the engine completes the iteratee callback `done` of
the inner loop after a call of a phase method. With the callback passed
(line 155) `done` is called by the method itself; without it (lines 157-171)
the returned value decides: a thenable is chained with `then` and `catch`,
any other value is passed on by `done(null, result)`. A thrown value goes to
`done(err)` (lines 173-175), also the one thrown while the chain is built,
which happens inside the `try`. `Promise` is always defined (line 5). -/
def settle (withCallback : Bool) : Effect → Completion
  | .throws e => .invoked e .undefined
  | .returns result callback =>
    if withCallback then
      match callback with
      | some (err, data) => .invoked err data
      | none => .never
    else
      match result with
      | .plain value => .invoked .null value
      | .thenable (.fulfilled value) => .invoked .null value
      | .thenable (.rejected reason) => .invoked reason .undefined
      | .thenable .pending => .never
      | .unchainable e => .invoked e .undefined

/-- Lines 149-181: the iteratee of the inner loop, one registration in one
phase. A member that is not a function is skipped by `done()`. -/
def invokePlugin {σ : Type} (context : Context) (phase : String) (plugin : Plugin σ)
    (w : World σ) : Completion × World σ :=
  match plugin.handler.member phase with
  | .function method =>
    let withCallback := decide (method.length = 2)
    let r := method.call context w.state
    (settle withCallback r.1,
      { state := r.2,
        trace := w.trace ++ [{ plugin := plugin, phase := phase, context := context,
                               withCallback := withCallback, effect := r.1 }] })
  | _ => (.invoked .undefined .undefined, w)

/-- Lines 134-141: `run` fills in the defaults of the options object again. -/
def Options.withDefaults (options : Options) (process : Process) : Options :=
  let truthy : Option String → Option String := fun o => o.filter (fun s => s != "")
  let appRootDir := (truthy options.appRootDir).getD process.cwd
  let env := ((truthy options.env).orElse (fun _ => truthy process.nodeEnv)).getD "development"
  let appConfigRootDir := (truthy options.appConfigRootDir).getD appRootDir
  { options with appRootDir := some appRootDir, rootDir := some appConfigRootDir,
                 env := some env }

/-- A completion callback supplied by the caller of `run`: a function;
`promise` is the value of its property `promise`, which line 183 reads
(`undefined` for a function without such a property). -/
structure Callback where
  promise : Value
  deriving DecidableEq, Repr

/-- The value `run` returns at line 183, `done.promise`: the property of the
caller's callback, or the promise made by `createPromiseCallback` together
with the state it ends up in. -/
inductive RunReturn where
  | value (v : Value)
  | promise (settles : Settlement)
  deriving DecidableEq, Repr

/-- The result of a call of `run`: the engine after the call, the value
returned, the invocation of `done` (the caller's callback when one was
supplied, else the callback of `createPromiseCallback`), and the world after
the run. -/
structure RunResult (σ : Type) where
  self : Bootstrapper σ
  returned : RunReturn
  done : Completion
  world : World σ

/-- Line 143, `context = context || {}`. -/
def contextOrEmpty (context : Option Context) : Context :=
  context.getD { ref := none, phases := none }

/-- Line 145, `context.phases || this.phases`. -/
def Bootstrapper.effectivePhases {σ : Type} (self : Bootstrapper σ) (context : Context) :
    List String :=
  match context.phases with
  | some phases => phases
  | none => self.phases

/-- Lines 147-182: the two nested loops, the outer one over the phases, the
inner one over the registrations; the final callback of the inner loop is the
iteratee callback of the outer one. -/
def runPhases {σ : Type} (context : Context) (bootPlugins : List (Plugin σ))
    (phases : List String) (w : World σ) : Completion × World σ :=
  eachSeries
    (fun phase w => eachSeries (fun plugin w => invokePlugin context phase plugin w) bootPlugins w)
    phases w

/-- Lines 130-184, `Bootstrapper.prototype.run`, started in state `s`. -/
def Bootstrapper.run {σ : Type} (self : Bootstrapper σ) (process : Process)
    (context : Option Context) (done : Option Callback) (s : σ) : RunResult σ :=
  let self1 := { self with options := self.options.withDefaults process }
  let context := contextOrEmpty context
  let phases := self1.effectivePhases context
  let bootPlugins := self1.getExtensions "/boot".toList
  let r := runPhases context bootPlugins phases { state := s, trace := [] }
  { self := self1
    returned :=
      match done with
      | some callback => .value callback.promise
      | none => .promise (createPromiseCallback r.1)
    done := r.1
    world := r.2 }

/-! ## Construction and the phase list -/

/-- Lines 25-28, `builtinPlugins`. -/
def builtinPlugins : List String :=
  ["application", "datasource", "model", "mixin",
   "middleware", "component", "boot-script", "swagger"]

/-- Lines 30-32, `builtinPhases`. -/
def builtinPhases : List String :=
  ["load", "compile", "starting", "start", "started"]

/-- The value of an option that is meant to hold an array of names
(`options.phases`, `options.plugins`): an array of names; an object that is no
array but has a `forEach` method that visits names (a `Set`, say); a truthy
value that is no array and has no string conversion, so that `'...' + value`
throws a `TypeError` (a symbol, or an object without `toString` and `valueOf`
such as `Object.create(null)`); or any other value, `undefined` when the
option is omitted, which has a string conversion and no `forEach` method. -/
inductive NamesOption where
  | array (names : List String)
  | forEachable (names : List String)
  | unprintable
  | value (v : Value)
  deriving DecidableEq, Repr

/-- JavaScript truthiness of such a value: objects and symbols are truthy. -/
def NamesOption.truthy : NamesOption → Bool
  | .array _ => true
  | .forEachable _ => true
  | .unprintable => true
  | .value v => v.truthy

/-- Whether the concatenation `'...' + value`, which builds the messages of
lines 58-60, has a result. -/
def NamesOption.hasString : NamesOption → Bool
  | .unprintable => false
  | _ => true

/-- The test `Array.isArray`. -/
def NamesOption.isArray : NamesOption → Bool
  | .array _ => true
  | _ => false

/-- `a || b` on such values. -/
def NamesOption.or (a b : NamesOption) : NamesOption :=
  if a.truthy then a else b

/-- The options object passed to the constructor, restricted to the
properties the constructor reads. -/
structure Config where
  appRootDir : Option String
  appConfigRootDir : Option String
  env : Option String
  phases : NamesOption
  plugins : NamesOption
  deriving DecidableEq, Repr

/-- The argument of the constructor: nothing, a string (the application root
directory, lines 43-45), or an options object. -/
inductive ConstructorArg where
  | absent
  | string (appRootDir : String)
  | object (config : Config)
  deriving DecidableEq, Repr

/-- Lines 41-45: `options = options || {}` and the string shorthand. The
empty string is falsy. -/
def ConstructorArg.toConfig : ConstructorArg → Config
  | .object config => config
  | .string appRootDir =>
    { appRootDir := if appRootDir != "" then some appRootDir else none,
      appConfigRootDir := none, env := none,
      phases := .value .undefined, plugins := .value .undefined }
  | .absent =>
    { appRootDir := none, appConfigRootDir := none, env := none,
      phases := .value .undefined, plugins := .value .undefined }

/-- The ways in which the constructor throws: the two assertions of lines
58-60, the `TypeError` of building the message of an assertion from a value
without string conversion (lines 58-60), the `TypeError` of calling a
`forEach` that is no function (line 63), and whatever `require` or a plugin
factory throws (lines 64-65). -/
inductive ConstructionError where
  | invalidPhases
  | invalidPlugins
  | noStringConversion
  | notAFunction
  | thrown (e : Value)
  deriving DecidableEq, Repr

/-- A plugin factory: it takes the options and returns a handler object, or
throws. -/
abbrev Factory (σ : Type) := Options → Except Value (Handler σ)

/-- The module loader `require`, from the module path to the factory the
module exports, or the value thrown. The plugin modules `lib/plugins/*` are
not part of the source at hand; the loader is a parameter of the
construction. -/
abbrev Require (σ : Type) := String → Except Value (Factory σ)

/-- Lines 63-66, the body of `forEach` run over the names: load the factory
of `./plugins/` + name and register its handler at `/boot/` + name. -/
def registerPlugins {σ : Type} (require : Require σ) (options : Options) :
    List String → Bootstrapper σ → Except ConstructionError (Bootstrapper σ)
  | [], self => .ok self
  | p :: rest, self =>
    match require ("./plugins/" ++ p) with
    | .error e => .error (.thrown e)
    | .ok factory =>
      match factory options with
      | .error e => .error (.thrown e)
      | .ok handler =>
        registerPlugins require options rest (self.use ("/boot/".toList ++ p.toList) handler)

/-- Lines 39-67, the constructor `Bootstrapper`. The first assertion is on
`this.phases`; the second one is on `this.plugins`, the registry, which is the
empty array at that point, while its message shows `this.builtinPlugins`. The
message of an assertion is an argument of `assert`: it is built before
`assert` runs, also when the assertion holds. -/
def Bootstrapper.new {σ : Type} (process : Process) (require : Require σ)
    (arg : ConstructorArg) : Except ConstructionError (Bootstrapper σ) :=
  let plugins : NamesOption := .array []
  let config := arg.toConfig
  let options : Options :=
    Options.withDefaults
      { appRootDir := config.appRootDir, appConfigRootDir := config.appConfigRootDir,
        env := config.env, rootDir := none } process
  let phases := config.phases.or (.array builtinPhases)
  let builtin := config.plugins.or (.array builtinPlugins)
  if phases.hasString then
    match phases with
    | .array phaseNames =>
      if builtin.hasString then
        if plugins.isArray then
          let self : Bootstrapper σ :=
            { plugins := [], options := options, phases := phaseNames }
          match builtin with
          | .array names => registerPlugins require options names self
          | .forEachable names => registerPlugins require options names self
          | _ => .error .notAFunction
        else .error .invalidPlugins
      else .error .noStringConversion
    | _ => .error .invalidPhases
  else .error .noStringConversion

/-- The error of a failed construction, if it failed. -/
def constructionError {σ : Type} :
    Except ConstructionError (Bootstrapper σ) → Option ConstructionError
  | .error e => some e
  | .ok _ => none

/-- The engine of a successful construction, if it succeeded. -/
def constructed {σ : Type} :
    Except ConstructionError (Bootstrapper σ) → Option (Bootstrapper σ)
  | .error _ => none
  | .ok engine => some engine

/-- Insertion of `name` right after the first occurrence of `anchor`, at the
end when `anchor` does not occur. -/
def insertAfter (anchor name : String) : List String → List String
  | [] => [name]
  | x :: xs => if x = anchor then x :: name :: xs else x :: insertAfter anchor name xs

/-- The worker of `mergePhaseNameLists`: `anchor` is the name handled last. -/
def mergeFrom : Option String → List String → List String → List String
  | _, [], current => current
  | anchor, name :: rest, current =>
    if name ∈ current then mergeFrom (some name) rest current
    else
      match anchor with
      | some a => mergeFrom (some name) rest (insertAfter a name current)
      | none => mergeFrom (some name) rest (current ++ [name])

/-- Modelled from the spec: `mergePhaseNameLists` of `lib/utils.js`, which is
not part of the source at hand. The spec asks for a merge that keeps the
relative order of the existing names, keeps the names unique, and inserts a
new name at the end or at a position relative to an existing named anchor.
Here the names to merge are handled in order: a name that is in the list
already is not inserted again and becomes the anchor; a new name is inserted
right after the anchor, or at the end when there is no anchor yet, and becomes
the anchor. -/
def mergePhaseNameLists (currentNames namesToMerge : List String) : List String :=
  mergeFrom none namesToMerge currentNames

/-- Lines 118-121, `Bootstrapper.prototype.addPhases`: the value returned and
the engine after the call. An omitted argument is `none`; an array is truthy,
so `phases || []` is the array itself. -/
def Bootstrapper.addPhases {σ : Type} (self : Bootstrapper σ) (phases : Option (List String)) :
    List String × Bootstrapper σ :=
  let self1 := { self with phases := mergePhaseNameLists self.phases (phases.getD []) }
  (self1.phases, self1)

/-! ## Vocabulary of the properties -/

/-- A completion is a success when the callback is invoked without an error:
the first argument is falsy. This is the test the callbacks of the engine
apply (`if (err)`). -/
def Completion.isSuccess : Completion → Bool
  | .invoked err _ => !err.truthy
  | .never => false

/-- A completion is a failure when the callback is invoked with an error: the
first argument is truthy. -/
def Completion.isFailure : Completion → Bool
  | .invoked err _ => err.truthy
  | .never => false

/-- The completion with the error only: what a loop that stops passes to its
final callback. -/
def Completion.errorOnly : Completion → Completion
  | .invoked err _ => .invoked err .undefined
  | .never => .never

/-- The completion of the iteratee callback for a recorded call. -/
def Invocation.completion {σ : Type} (i : Invocation σ) : Completion :=
  settle i.withCallback i.effect

/-- An invocation fails with the error `e`: the method throws `e`, or it was
given the callback and calls it with the error `e`, or it was called without
callback and returns a thenable that is chained as a promise is and rejects
with `e`, or it was called without callback and returns a thenable on which
building the chain throws `e`. -/
def Invocation.failsWith {σ : Type} (i : Invocation σ) (e : Value) : Prop :=
  i.effect = .throws e ∨
  (i.withCallback = true ∧ ∃ r d, i.effect = .returns r (some (e, d))) ∨
  (i.withCallback = false ∧ ∃ cb, i.effect = .returns (.thenable (.rejected e)) cb) ∨
  (i.withCallback = false ∧ ∃ cb, i.effect = .returns (.unchainable e) cb)

/-- What the completion `c` of a call means for a run whose final callback is
invoked as `done` and in which `post` are the calls made after that call: an
error (a truthy first argument) ends the run with that error and no call
follows; silence ends the run without outcome and no call follows; a success
lets the run go on, so that when no call follows the run has succeeded. -/
def Completion.decides {σ : Type} (c : Completion) (done : Completion)
    (post : List (Invocation σ)) : Prop :=
  match c with
  | .invoked err _ =>
    if err.truthy then post = [] ∧ done = .invoked err .undefined
    else post = [] → done = .invoked .null .undefined
  | .never => post = [] ∧ done = .never

/-- A recorded call is a call of the member of its registration named after
its phase: that member is a function `m`, the callback was passed exactly when
`m` has two declared parameters, the first argument was `context`, and what
the call did is what `m` does on `context` in some state. -/
def Invocation.isCallOfMember {σ : Type} (context : Context) (i : Invocation σ) : Prop :=
  ∃ (m : Method σ) (s : σ), i.plugin.handler.member i.phase = .function m ∧
    i.withCallback = decide (m.length = 2) ∧ i.context = context ∧
    i.effect = (m.call context s).1

/-- A call of a phase method without what it did: registration, phase,
context passed, and whether the callback was passed. -/
abbrev Call (σ : Type) := Plugin σ × String × Context × Bool

/-- The call recorded by an invocation. -/
def Invocation.toCall {σ : Type} (i : Invocation σ) : Call σ :=
  (i.plugin, i.phase, i.context, i.withCallback)

/-- The call `run` makes for a registration in a phase, if its member of that
name is a function. -/
def callOf {σ : Type} (context : Context) (phase : String) (plugin : Plugin σ) :
    Option (Call σ) :=
  match plugin.handler.member phase with
  | .function method => some (plugin, phase, context, decide (method.length = 2))
  | _ => none

/-- The calls in phase-major, registration-minor order: for each phase in
order, for each registration in order, the call of the member named after the
phase if it is a function. -/
def expectedCalls {σ : Type} (context : Context) (bootPlugins : List (Plugin σ))
    (phases : List String) : List (Call σ) :=
  phases.flatMap (fun phase => bootPlugins.filterMap (callOf context phase))

/-- The shape of a finished or stopped loop: either every expected call was
made, all succeeded and the final callback got `(null)`; or the calls made are
an initial part of the expected ones, all but the last succeeded, and the last
one did not, its error (or its silence) being passed on. -/
def LoopShape {σ : Type} (expected : List (Call σ)) (t : List (Invocation σ))
    (c : Completion) : Prop :=
  (c = .invoked .null .undefined ∧ (∀ i ∈ t, i.completion.isSuccess = true) ∧
      t.map Invocation.toCall = expected) ∨
  (∃ pre i rest, t = pre ++ [i] ∧ (∀ j ∈ pre, j.completion.isSuccess = true) ∧
      i.completion.isSuccess = false ∧ c = i.completion.errorOnly ∧
      expected = t.map Invocation.toCall ++ rest)

/-- The registration of a list of `(path, handler)` pairs by `use`, one call
after the other. -/
def Bootstrapper.useAll {σ : Type} (self : Bootstrapper σ)
    (entries : List (JSString × Handler σ)) : Bootstrapper σ :=
  entries.foldl (fun engine entry => engine.use entry.1 entry.2) self

/-- A direct child of the normalized path `q`: the path starts with `q`, and
what follows `q` is non-empty and holds no separator. -/
def isDirectChild (q path : JSString) : Bool :=
  decide (q <+: path ∧ path.drop q.length ≠ [] ∧ sep ∉ path.drop q.length)

/-! ## Example engines

The world state of the examples is a counter of the calls made. -/

namespace Example

/-- The ambient process of the examples. -/
def process : Process := { cwd := "/app", nodeEnv := none }

/-- A method with one declared parameter that returns the plain value `v`. -/
def returning (v : Value) : Method Nat :=
  { length := 1, call := fun _ s => (.returns (.plain v) none, s + 1) }

/-- A method with one declared parameter that returns a promise rejected
with `e`. -/
def rejecting (e : Value) : Method Nat :=
  { length := 1, call := fun _ s => (.returns (.thenable (.rejected e)) none, s + 1) }

/-- A method with one declared parameter that returns a thenable whose `then`
returns `undefined`, so that the call of `catch` on it throws the `TypeError`
`e`. -/
def returningUnchainable (e : Value) : Method Nat :=
  { length := 1, call := fun _ s => (.returns (.unchainable e) none, s + 1) }

/-- A method with one declared parameter that throws `e`. -/
def throwing (e : Value) : Method Nat :=
  { length := 1, call := fun _ s => (.throws e, s + 1) }

/-- A method with two declared parameters that calls its callback with
`(err, data)` and returns `undefined`. -/
def callingBack (err data : Value) : Method Nat :=
  { length := 2, call := fun _ s => (.returns (.plain .undefined) (some (err, data)), s + 1) }

/-- A handler object with the given methods and no other member. -/
def handler (methods : List (String × Method Nat)) : Handler Nat :=
  { member := fun name =>
      match methods.lookup name with
      | some method => .function method
      | none => .absent }

/-- A handler object without any member. -/
def plain : Handler Nat := handler []

/-- An engine without registrations. -/
def engine (phases : List String) : Bootstrapper Nat :=
  { plugins := [],
    options := { appRootDir := none, appConfigRootDir := none, env := none, rootDir := none },
    phases := phases }

/-- Extension 1: `load` returns 1, `compile` is `m`. -/
def ext1 (m : Method Nat) : Plugin Nat :=
  { path := "/boot/ext1".toList,
    handler := handler [("load", returning (.number 1)), ("compile", m)] }

/-- Extension 2: only `compile`, which returns 3. -/
def ext2 : Plugin Nat :=
  { path := "/boot/ext2".toList, handler := handler [("compile", returning (.number 3))] }

/-- Phases `load`, `compile`; extension 1 implements both, its `compile`
being `m`; extension 2 implements only `compile`. -/
def withCompile (m : Method Nat) : Bootstrapper Nat :=
  ((engine ["load", "compile"]).use (ext1 m).path (ext1 m).handler).use ext2.path ext2.handler

/-- Phases `load`, `compile`; extension 1 implements both, extension 2 only
`compile`; every method returns a number. -/
def twoExtensions : Bootstrapper Nat := withCompile (returning (.number 2))

/-- One extension whose `load` is `m`. -/
def single (m : Method Nat) : Bootstrapper Nat :=
  (engine ["load"]).use "/boot/ext1".toList (handler [("load", m)])

/-- The call of `load` of extension 1 in a run of `withCompile m` without
context. -/
def ext1Load (m : Method Nat) : Invocation Nat :=
  { plugin := ext1 m, phase := "load", context := contextOrEmpty none,
    withCallback := false, effect := .returns (.plain (.number 1)) none }

/-- The call of `compile` of extension 1 in a run of `withCompile m` without
context, for a method `m` with one declared parameter. -/
def ext1Compile (m : Method Nat) (effect : Effect) : Invocation Nat :=
  { plugin := ext1 m, phase := "compile", context := contextOrEmpty none,
    withCallback := false, effect := effect }

/-- The registrations of the examples of `getExtensions`. -/
def children : Bootstrapper Nat :=
  ((((engine []).use "/x/boot/y".toList plain).use "/boot".toList plain).use
    "/boot/model/foo".toList plain).use "/boot/model".toList plain

/-- The registrations of the example of `getPlugins`. -/
def prefixed : Bootstrapper Nat :=
  (((engine []).use "/boot/a".toList plain).use "/boot/a/b".toList plain).use
    "/boota".toList plain

/-- A method with two declared parameters that returns `result` and never
calls its callback. -/
def hanging (result : Returned) : Method Nat :=
  { length := 2, call := fun _ s => (.returns result none, s + 1) }

/-- A method with two declared parameters that returns a promise rejected
with an error object and calls its callback with `(null, data)`. -/
def callingBackWhileRejected (data : Value) : Method Nat :=
  { length := 2,
    call := fun _ s => (.returns (.thenable (.rejected (.object 9))) (some (.null, data)), s + 1) }

/-- A module loader under which every plugin module exports a factory that
returns the handler object without members. -/
def require : Require Nat := fun _ => .ok (fun _ => .ok plain)

/-- A module loader under which no module can be loaded. -/
def requireFails : Require Nat := fun _ => .error (.object 404)

/-- An options object with nothing but the two name lists. -/
def config (phases plugins : NamesOption) : Config :=
  { appRootDir := none, appConfigRootDir := none, env := none,
    phases := phases, plugins := plugins }

/-- The options the constructor hands to the factories in the examples. -/
def options : Options :=
  { appRootDir := some "/app", appConfigRootDir := none, env := some "development",
    rootDir := some "/app" }

/-- Handlers that implement `load`, registered at paths that are no direct
children of `/boot`. -/
def elsewhere : Bootstrapper Nat :=
  ((((engine ["load"]).use "/boot".toList (handler [("load", returning (.number 1))])).use
      "/boot/a/b".toList (handler [("load", returning (.number 2))])).use
      "/boota/x".toList (handler [("load", returning (.number 3))])).use
    "/other/x".toList (handler [("load", returning (.number 4))])

/-- The engine `twoExtensions` with an extension without members registered
between the two. -/
def withInert : Bootstrapper Nat :=
  (((engine ["load", "compile"]).use (ext1 (returning (.number 2))).path
      (ext1 (returning (.number 2))).handler).use "/boot/inert".toList plain).use
    ext2.path ext2.handler

end Example

/-! ## Strings -/

theorem indexOfFrom_ge (pat s : JSString) (k : Nat) :
    indexOfFrom pat s k = -1 ∨ (k : Int) ≤ indexOfFrom pat s k := by
  induction s generalizing k with
  | nil => unfold indexOfFrom; split <;> simp
  | cons c s ih =>
    unfold indexOfFrom
    split
    · right; exact le_refl _
    · rcases ih (k + 1) with h | h
      · left; exact h
      · right; push_cast at h; omega

theorem indexOfFrom_eq_start (pat s : JSString) (k : Nat) :
    indexOfFrom pat s k = (k : Int) ↔ pat <+: s := by
  cases s with
  | nil =>
    unfold indexOfFrom
    by_cases hp : pat = []
    · simp [hp]
    · simp only [hp, if_false, List.prefix_nil, iff_false]
      omega
  | cons c s =>
    unfold indexOfFrom
    by_cases hp : pat.isPrefixOf (c :: s) = true
    · simp only [hp, if_true, true_iff]
      exact List.isPrefixOf_iff_prefix.1 hp
    · have hn : ¬ pat <+: c :: s := fun h => hp (List.isPrefixOf_iff_prefix.2 h)
      simp only [hp, hn, iff_false]
      rcases indexOfFrom_ge pat s (k + 1) with h | h
      · simp only [Bool.false_eq_true, if_false, h]; omega
      · simp only [Bool.false_eq_true, if_false]; push_cast at h; omega

theorem indexOfFrom_eq_neg_one (pat s : JSString) (k : Nat) :
    indexOfFrom pat s k = -1 ↔ ¬ pat <:+: s := by
  induction s generalizing k with
  | nil =>
    unfold indexOfFrom
    by_cases hp : pat = []
    · simp only [hp, if_true, List.infix_refl, not_true_eq_false, iff_false]
      omega
    · simp [hp]
  | cons c s ih =>
    unfold indexOfFrom
    by_cases hp : pat.isPrefixOf (c :: s) = true
    · have hpre : pat <+: c :: s := List.isPrefixOf_iff_prefix.1 hp
      simp only [hp, if_true, hpre.isInfix, not_true_eq_false, iff_false]
      omega
    · have hn : ¬ pat <+: c :: s := fun h => hp (List.isPrefixOf_iff_prefix.2 h)
      simp only [hp, Bool.false_eq_true, if_false, ih, List.infix_cons_iff, hn, false_or]

theorem indexOf_eq_zero (s pat : JSString) : indexOf s pat = 0 ↔ pat <+: s := by
  simpa [indexOf] using indexOfFrom_eq_start pat s 0

theorem indexOf_eq_neg_one (s pat : JSString) : indexOf s pat = -1 ↔ ¬ pat <:+: s :=
  indexOfFrom_eq_neg_one pat s 0

theorem indexOf_sep_eq_neg_one (s : JSString) : indexOf s [sep] = -1 ↔ sep ∉ s := by
  rw [indexOf_eq_neg_one]
  constructor
  · intro h hm
    obtain ⟨a, b, hab⟩ := List.append_of_mem hm
    exact h ⟨a, b, by simp [hab]⟩
  · rintro h ⟨a, b, hab⟩
    exact h (by rw [← hab]; simp)

theorem withTrailingSep_getLast (path : JSString) :
    (withTrailingSep path).getLast? = some sep := by
  unfold withTrailingSep
  split
  · simp
  · rename_i h; simpa using h

/-- A string that ends in the separator and occurs somewhere in `s` occurs at
position 0 as soon as `s` holds no separator from position `q.length` on: an
occurrence further right would put its last character there. -/
theorem starts_of_occurs (q s : JSString) (hq : q.getLast? = some sep) (h : q <:+: s)
    (hs : sep ∉ s.drop q.length) : q <+: s := by
  obtain ⟨a, b, hab⟩ := h
  cases a with
  | nil => exact ⟨b, by simpa using hab⟩
  | cons c a =>
    exfalso
    apply hs
    obtain ⟨q0, rfl⟩ : ∃ q0, q = q0 ++ [sep] := by
      rcases List.eq_nil_or_concat q with rfl | ⟨q0, x, rfl⟩
      · simp at hq
      · refine ⟨q0, ?_⟩
        have hx : x = sep := by simpa [Option.or] using hq
        simp [hx]
    have hsplit : s = (c :: a ++ q0) ++ (sep :: b) := by simp [← hab]
    rw [hsplit, List.drop_append_of_le_length (by simp)]
    simp

/-- The test of `getExtensions` (lines 106-108) keeps the paths that start
with the normalized path and go on with a non-empty name without separator. -/
theorem extension_test (q s : JSString) (hq : q.getLast? = some sep) :
    (if indexOf s q == -1 then false
      else substring s q.length != [] && indexOf (substring s q.length) [sep] == -1) = true
    ↔ (q <+: s ∧ s.drop q.length ≠ [] ∧ sep ∉ s.drop q.length) := by
  by_cases hocc : q <:+: s
  · have h1 : ¬ indexOf s q = -1 := fun h => (indexOf_eq_neg_one s q).1 h hocc
    simp only [beq_iff_eq, h1, if_false, substring, Bool.and_eq_true, bne_iff_ne, ne_eq,
      indexOf_sep_eq_neg_one]
    constructor
    · rintro ⟨hne, hsep⟩
      exact ⟨starts_of_occurs q s hq hocc hsep, hne, hsep⟩
    · rintro ⟨_, hne, hsep⟩
      exact ⟨hne, hsep⟩
  · have h1 : indexOf s q = -1 := (indexOf_eq_neg_one s q).2 hocc
    simp only [beq_iff_eq, h1, if_true, Bool.false_eq_true, false_iff, not_and]
    intro hpre
    exact absurd hpre.isInfix hocc

/-! ## The loops -/

theorem LoopShape.nil {σ : Type} :
    LoopShape ([] : List (Call σ)) [] (.invoked .null .undefined) :=
  Or.inl ⟨rfl, by simp, rfl⟩

theorem LoopShape.stop {σ : Type} (i : Invocation σ) (rest : List (Call σ))
    (hi : i.completion.isSuccess = false) :
    LoopShape (i.toCall :: rest) [i] i.completion.errorOnly :=
  Or.inr ⟨[], i, rest, rfl, by simp, hi, rfl, by simp⟩

theorem LoopShape.cons {σ : Type} {expected : List (Call σ)} {t : List (Invocation σ)}
    {c : Completion} (i : Invocation σ) (hi : i.completion.isSuccess = true)
    (h : LoopShape expected t c) : LoopShape (i.toCall :: expected) (i :: t) c := by
  rcases h with ⟨hc, hall, hmap⟩ | ⟨pre, j, rest, ht, hpre, hj, hc, hexp⟩
  · refine Or.inl ⟨hc, ?_, by simp [hmap]⟩
    intro k hk
    rcases List.mem_cons.1 hk with rfl | hk
    · exact hi
    · exact hall k hk
  · refine Or.inr ⟨i :: pre, j, rest, by simp [ht], ?_, hj, hc, by simp [hexp]⟩
    intro k hk
    rcases List.mem_cons.1 hk with rfl | hk
    · exact hi
    · exact hpre k hk

theorem LoopShape.append {σ : Type} {e1 e2 : List (Call σ)} {t1 t2 : List (Invocation σ)}
    {c : Completion} (h1 : LoopShape e1 t1 (.invoked .null .undefined))
    (h2 : LoopShape e2 t2 c) : LoopShape (e1 ++ e2) (t1 ++ t2) c := by
  rcases h1 with ⟨_, hall, hmap⟩ | ⟨pre, j, rest, _, _, hj, hc, _⟩
  · induction t1 generalizing e1 with
    | nil => subst hmap; simpa using h2
    | cons i t ih =>
      subst hmap
      have hi := hall i (List.mem_cons_self _ _)
      have := @ih (t.map Invocation.toCall)
        (fun k hk => hall k (List.mem_cons_of_mem _ hk)) rfl
      simpa using LoopShape.cons i hi this
  · exfalso
    cases hcj : j.completion with
    | invoked err data =>
      rw [hcj] at hj hc
      simp only [Completion.errorOnly, Completion.invoked.injEq] at hc
      simp only [Completion.isSuccess] at hj
      rw [← hc.1] at hj
      simp [Value.truthy] at hj
    | never =>
      rw [hcj] at hc
      simp [Completion.errorOnly] at hc

theorem LoopShape.extend {σ : Type} {e1 : List (Call σ)} {t : List (Invocation σ)}
    {c : Completion} (e2 : List (Call σ)) (h : LoopShape e1 t c)
    (hc : c ≠ .invoked .null .undefined) : LoopShape (e1 ++ e2) t c := by
  rcases h with ⟨hc1, _, _⟩ | ⟨pre, j, rest, ht, hpre, hj, hcj, hexp⟩
  · exact absurd hc1 hc
  · exact Or.inr ⟨pre, j, rest ++ e2, ht, hpre, hj, hcj, by simp [hexp]⟩

/-- A stopped loop passes on a truthy error or nothing at all. -/
theorem errorOnly_of_not_success (c : Completion) (h : c.isSuccess = false) :
    (c.errorOnly = .never ∧ c = .never) ∨
      ∃ e d, c = .invoked e d ∧ e.truthy = true ∧ c.errorOnly = .invoked e .undefined := by
  cases c with
  | invoked e d =>
    right
    refine ⟨e, d, rfl, ?_, rfl⟩
    simpa [Completion.isSuccess] using h
  | never => left; exact ⟨rfl, rfl⟩

/-- The inner loop (lines 149-181) over the registrations, in one phase. -/
theorem eachSeries_plugins_shape {σ : Type} (context : Context) (phase : String)
    (bootPlugins : List (Plugin σ)) (w : World σ) :
    ∃ t, (eachSeries (fun plugin w => invokePlugin context phase plugin w) bootPlugins w).2.trace
          = w.trace ++ t ∧
      LoopShape (bootPlugins.filterMap (callOf context phase)) t
        (eachSeries (fun plugin w => invokePlugin context phase plugin w) bootPlugins w).1 := by
  induction bootPlugins generalizing w with
  | nil => exact ⟨[], by simp [eachSeries], LoopShape.nil⟩
  | cons plugin rest ih =>
    cases hm : plugin.handler.member phase with
    | absent =>
      obtain ⟨t, ht, hs⟩ := ih w
      refine ⟨t, ?_, ?_⟩
      · simpa [eachSeries, invokePlugin, hm, Value.truthy] using ht
      · simpa [eachSeries, invokePlugin, hm, Value.truthy, callOf] using hs
    | notCallable v =>
      obtain ⟨t, ht, hs⟩ := ih w
      refine ⟨t, ?_, ?_⟩
      · simpa [eachSeries, invokePlugin, hm, Value.truthy] using ht
      · simpa [eachSeries, invokePlugin, hm, Value.truthy, callOf] using hs
    | function method =>
      let i : Invocation σ :=
        { plugin := plugin, phase := phase, context := context,
          withCallback := decide (method.length = 2),
          effect := (method.call context w.state).1 }
      let w1 : World σ := { state := (method.call context w.state).2, trace := w.trace ++ [i] }
      have hcall : callOf context phase plugin = some i.toCall := by
        simp [callOf, hm, i, Invocation.toCall]
      have hstep : invokePlugin context phase plugin w = (i.completion, w1) := by
        simp [invokePlugin, hm, i, w1, Invocation.completion]
      cases hc : i.completion with
      | invoked err data =>
        by_cases herr : err.truthy = true
        · refine ⟨[i], ?_, ?_⟩
          · simp [eachSeries, hstep, hc, herr, w1]
          · have := LoopShape.stop i (rest.filterMap (callOf context phase))
              (by simp [hc, Completion.isSuccess, herr])
            simpa [eachSeries, hstep, hc, herr, hcall, Completion.errorOnly] using this
        · obtain ⟨t, ht, hs⟩ := ih w1
          refine ⟨i :: t, ?_, ?_⟩
          · simpa [eachSeries, hstep, hc, herr, w1] using ht
          · have := LoopShape.cons i (by simp [hc, Completion.isSuccess, herr]) hs
            simpa [eachSeries, hstep, hc, herr, hcall] using this
      | never =>
        refine ⟨[i], ?_, ?_⟩
        · simp [eachSeries, hstep, hc, w1]
        · have := LoopShape.stop i (rest.filterMap (callOf context phase))
            (by simp [hc, Completion.isSuccess])
          simpa [eachSeries, hstep, hc, hcall, Completion.errorOnly] using this

/-- The two nested loops (lines 147-182). -/
theorem runPhases_shape {σ : Type} (context : Context) (bootPlugins : List (Plugin σ))
    (phases : List String) (w : World σ) :
    ∃ t, (runPhases context bootPlugins phases w).2.trace = w.trace ++ t ∧
      LoopShape (expectedCalls context bootPlugins phases) t
        (runPhases context bootPlugins phases w).1 := by
  induction phases generalizing w with
  | nil => exact ⟨[], by simp [runPhases, eachSeries], by
      simpa [runPhases, eachSeries, expectedCalls] using LoopShape.nil⟩
  | cons phase rest ih =>
    obtain ⟨t1, ht1, hs1⟩ := eachSeries_plugins_shape context phase bootPlugins w
    have hexp : expectedCalls context bootPlugins (phase :: rest)
        = bootPlugins.filterMap (callOf context phase)
            ++ expectedCalls context bootPlugins rest := by
      simp [expectedCalls]
    rw [hexp]
    generalize hr : eachSeries (fun plugin w => invokePlugin context phase plugin w)
      bootPlugins w = r at ht1 hs1
    obtain ⟨c, w1⟩ := r
    have hunfold : runPhases context bootPlugins (phase :: rest) w
        = match c with
          | .invoked err _ =>
            if err.truthy then (.invoked err .undefined, w1)
            else runPhases context bootPlugins rest w1
          | .never => (.never, w1) := by
      simp only [runPhases, eachSeries, hr]
      cases c <;> rfl
    rw [hunfold]
    simp only at ht1 hs1
    rcases hs1 with ⟨hc, hall, hmap⟩ | ⟨pre, j, more, ht, hpre, hj, hcj, hmore⟩
    · subst hc
      obtain ⟨t2, ht2, hs2⟩ := ih w1
      refine ⟨t1 ++ t2, ?_, ?_⟩
      · simpa [Value.truthy, ht1, List.append_assoc] using ht2
      · have := LoopShape.append (Or.inl ⟨rfl, hall, hmap⟩) hs2
        simpa [Value.truthy] using this
    · have hshape : LoopShape (bootPlugins.filterMap (callOf context phase)) t1 c :=
        Or.inr ⟨pre, j, more, ht, hpre, hj, hcj, hmore⟩
      rcases errorOnly_of_not_success _ hj with ⟨hn, _⟩ | ⟨e, d, _, he, hn⟩
      · rw [hn] at hcj
        subst hcj
        exact ⟨t1, ht1, LoopShape.extend _ hshape (by simp)⟩
      · rw [hn] at hcj
        subst hcj
        refine ⟨t1, by simpa [he] using ht1, ?_⟩
        have := LoopShape.extend (expectedCalls context bootPlugins rest) hshape
          (by intro h; simp only [Completion.invoked.injEq] at h; rw [h.1] at he
              simp [Value.truthy] at he)
        simpa [he] using this

/-- In a loop of that shape a call that did not succeed is the last one made,
all calls before it succeeded, and its error alone is passed on. -/
theorem LoopShape.last_of_not_success {σ : Type} {expected : List (Call σ)}
    {pre post : List (Invocation σ)} {i : Invocation σ} {c : Completion}
    (h : LoopShape expected (pre ++ i :: post) c) (hi : i.completion.isSuccess = false) :
    post = [] ∧ (∀ j ∈ pre, j.completion.isSuccess = true) ∧ c = i.completion.errorOnly ∧
      ∃ rest, expected = (pre ++ [i]).map Invocation.toCall ++ rest := by
  rcases h with ⟨_, hall, _⟩ | ⟨pre1, j, rest, ht, hpre, _, hc, hexp⟩
  · have := hall i (by simp)
    rw [hi] at this
    exact absurd this (by simp)
  · have hpost : post = [] := by
      by_contra hne
      have hdrop : (pre ++ i :: post).dropLast = pre1 := by rw [ht]; simp
      have hmem : i ∈ pre1 := by
        rw [← hdrop, List.dropLast_append_of_ne_nil _ (by simp)]
        obtain ⟨x, xs, rfl⟩ := List.exists_cons_of_ne_nil hne
        simp
      have := hpre i hmem
      rw [hi] at this
      exact absurd this (by simp)
    subst hpost
    obtain ⟨h1, h2⟩ := List.append_inj' ht rfl
    obtain rfl : i = j := by simpa using h2
    subst h1
    exact ⟨rfl, hpre, hc, rest, by rw [hexp, ht]⟩

/-- The calls `run` makes and the invocation of `done` have the shape of the
loops over the effective phase list and the direct children of `/boot`. -/
theorem run_shape {σ : Type} (self : Bootstrapper σ) (process : Process)
    (context : Option Context) (done : Option Callback) (s : σ) :
    LoopShape
      (expectedCalls (contextOrEmpty context) (self.getExtensions "/boot".toList)
        (self.effectivePhases (contextOrEmpty context)))
      (self.run process context done s).world.trace
      (self.run process context done s).done := by
  obtain ⟨t, ht, hs⟩ := runPhases_shape (contextOrEmpty context)
    (self.getExtensions "/boot".toList) (self.effectivePhases (contextOrEmpty context))
    { state := s, trace := [] }
  simp only [List.nil_append] at ht
  rw [← ht] at hs
  exact hs

/-- The completion of a call that fails with the error `e`. -/
theorem completion_of_throws {σ : Type} (i : Invocation σ) (e : Value)
    (h : i.effect = .throws e) : i.completion = .invoked e .undefined := by
  simp [Invocation.completion, h, settle]

theorem mem_expectedCalls {σ : Type} (context : Context) (bootPlugins : List (Plugin σ))
    (phases : List String) (c : Call σ) (h : c ∈ expectedCalls context bootPlugins phases) :
    c.1 ∈ bootPlugins ∧ c.2.1 ∈ phases ∧ c.2.2.1 = context ∧
      ∃ m, c.1.handler.member c.2.1 = .function m ∧ c.2.2.2 = decide (m.length = 2) := by
  simp only [expectedCalls, List.mem_flatMap, List.mem_filterMap] at h
  obtain ⟨phase, hphase, plugin, hplugin, hcall⟩ := h
  unfold callOf at hcall
  split at hcall
  · rename_i m hm
    simp only [Option.some.injEq] at hcall
    subst hcall
    exact ⟨hplugin, hphase, rfl, m, hm, rfl⟩
  · simp at hcall

theorem trace_mem_expectedCalls {σ : Type} (self : Bootstrapper σ) (process : Process)
    (context : Option Context) (done : Option Callback) (s : σ) (i : Invocation σ)
    (hi : i ∈ (self.run process context done s).world.trace) :
    i.toCall ∈ expectedCalls (contextOrEmpty context) (self.getExtensions "/boot".toList)
      (self.effectivePhases (contextOrEmpty context)) := by
  rcases run_shape self process context done s with
    ⟨_, _, hmap⟩ | ⟨_, _, rest, _, _, _, _, hexp⟩
  · rw [← hmap]; exact List.mem_map_of_mem _ hi
  · rw [hexp]; exact List.mem_append_left _ (List.mem_map_of_mem _ hi)

/-! ## The registry: `use`, `getPlugins`, `getExtensions` -/

theorem useAll_plugins {σ : Type} (self : Bootstrapper σ)
    (entries : List (JSString × Handler σ)) :
    (self.useAll entries).plugins
      = self.plugins ++ entries.map (fun entry => { path := entry.1, handler := entry.2 }) := by
  induction entries generalizing self with
  | nil => simp [Bootstrapper.useAll]
  | cons entry rest ih =>
    have := ih (self.use entry.1 entry.2)
    simpa [Bootstrapper.useAll, Bootstrapper.use] using this

theorem getExtensions_eq_filter {σ : Type} (self : Bootstrapper σ) (path : JSString) :
    self.getExtensions path
      = self.plugins.filter (fun r => isDirectChild (withTrailingSep path) r.path) := by
  unfold Bootstrapper.getExtensions
  apply List.filter_congr
  intro r _
  have h := extension_test (withTrailingSep path) r.path (withTrailingSep_getLast path)
  rw [Bool.eq_iff_iff, h]
  simp [isDirectChild]

/-- C3: `getExtensions(p)` returns, in registration order, exactly the
registrations whose path starts at position 0 with `p` normalized to end in
`'/'` and goes on with a non-empty remainder that holds no `'/'`. Of the
registrations `/x/boot/y`, `/boot`, `/boot/model/foo` and `/boot/model`, the
query for `/boot` returns the last one only. -/
theorem getExtensions_direct_children {σ : Type} (self : Bootstrapper σ) (p : JSString) :
    self.getExtensions p
        = self.plugins.filter (fun r =>
            decide (withTrailingSep p <+: r.path ∧
              r.path.drop (withTrailingSep p).length ≠ [] ∧
              sep ∉ r.path.drop (withTrailingSep p).length)) ∧
      (withTrailingSep p = if p.getLast? = some sep then p else p ++ [sep]) ∧
      (Example.children.getExtensions "/boot".toList).map (fun r => r.path)
        = ["/boot/model".toList] ∧
      Example.children.plugins.map (fun r => r.path)
        = ["/x/boot/y".toList, "/boot".toList, "/boot/model/foo".toList, "/boot/model".toList] := by
  refine ⟨?_, ?_, by decide, by decide⟩
  · simpa [isDirectChild] using getExtensions_eq_filter self p
  · unfold withTrailingSep
    by_cases h : p.getLast? = some sep <;> simp [h]

/-- C4: `getPlugins(p)` returns, in registration order, exactly the
registrations whose path starts with `p` normalized to end in `'/'`. After
registering `/boot/a`, `/boot/a/b` and `/boota`, the query for `/boot` returns
the first two in that order and the query for `/boo` returns none. -/
theorem getPlugins_starting_with {σ : Type} (self : Bootstrapper σ) (p : JSString) :
    self.getPlugins p
        = self.plugins.filter (fun r => decide (withTrailingSep p <+: r.path)) ∧
      (withTrailingSep p = if p.getLast? = some sep then p else p ++ [sep]) ∧
      Example.prefixed.plugins.map (fun r => r.path)
        = ["/boot/a".toList, "/boot/a/b".toList, "/boota".toList] ∧
      (Example.prefixed.getPlugins "/boot".toList).map (fun r => r.path)
        = ["/boot/a".toList, "/boot/a/b".toList] ∧
      (Example.prefixed.getPlugins "/boo".toList).map (fun r => r.path) = [] := by
  refine ⟨?_, ?_, by decide, by decide, by decide⟩
  · unfold Bootstrapper.getPlugins
    apply List.filter_congr
    intro r _
    rw [Bool.eq_iff_iff]
    simp [indexOf_eq_zero]
  · unfold withTrailingSep
    by_cases h : p.getLast? = some sep <;> simp [h]

/-- C8: `use(path, handler)` is total and leaves the registry equal to the
previous list with the one entry `{path, handler}` appended: the length grows
by one, the earlier entries keep their positions, an entry that is already
registered is appended again, and phase list and options are unchanged. -/
theorem use_appends {σ : Type} (self : Bootstrapper σ) (path : JSString)
    (handler : Handler σ) :
    (self.use path handler).plugins
        = self.plugins ++ [{ path := path, handler := handler }] ∧
      (self.use path handler).plugins.length = self.plugins.length + 1 ∧
      (self.use path handler).plugins.take self.plugins.length = self.plugins ∧
      (self.use path handler).plugins.get? self.plugins.length
        = some { path := path, handler := handler } ∧
      ((self.use path handler).use path handler).plugins
        = self.plugins ++ [{ path := path, handler := handler },
                           { path := path, handler := handler }] ∧
      (self.use path handler).phases = self.phases ∧
      (self.use path handler).options = self.options := by
  refine ⟨rfl, by simp [Bootstrapper.use], by simp [Bootstrapper.use],
    by simp [Bootstrapper.use], by simp [Bootstrapper.use], rfl, rfl⟩

/-- C9, as stated, fails for a parent path that ends in `'/'`: after
`use('/boot//a', h)` on an empty registry, `getExtensions('/boot/')` is
empty. -/
theorem getExtensions_parent_with_trailing_sep :
    ((Example.engine []).useAll
        [("/boot/".toList ++ "/".toList ++ "a".toList, Example.plain)]).plugins.length = 1 ∧
      (((Example.engine []).useAll
        [("/boot/".toList ++ "/".toList ++ "a".toList, Example.plain)]).getExtensions
          "/boot/".toList).length = 0 := by
  constructor <;> decide

/-- C9 (amended): on an engine without registrations, after registering any
sequence of handlers under the paths made of the parent path normalized to
end in `'/'` followed by a non-empty name without `'/'`, `getExtensions(parent)`
returns exactly those entries, in registration order. -/
theorem getExtensions_after_use {σ : Type} (self : Bootstrapper σ) (parent : JSString)
    (entries : List (JSString × Handler σ)) (hempty : self.plugins = [])
    (hnames : ∀ entry ∈ entries, entry.1 ≠ [] ∧ sep ∉ entry.1) :
    ((self.useAll (entries.map (fun entry => (withTrailingSep parent ++ entry.1, entry.2)))
        ).getExtensions parent)
      = entries.map (fun entry =>
          { path := withTrailingSep parent ++ entry.1, handler := entry.2 }) ∧
    ((self.useAll (entries.map (fun entry => (withTrailingSep parent ++ entry.1, entry.2)))
        ).getExtensions parent).length = entries.length := by
  have key : ((self.useAll (entries.map (fun entry =>
        (withTrailingSep parent ++ entry.1, entry.2)))).getExtensions parent)
      = entries.map (fun entry =>
          { path := withTrailingSep parent ++ entry.1, handler := entry.2 }) := by
    rw [getExtensions_eq_filter, useAll_plugins, hempty, List.nil_append, List.map_map]
    apply List.filter_eq_self.2
    intro r hr
    obtain ⟨entry, hentry, rfl⟩ := List.mem_map.1 hr
    obtain ⟨hne, hsep⟩ := hnames entry hentry
    simp [isDirectChild, hne, hsep]
  exact ⟨key, by rw [key, List.length_map]⟩

/-- A witness of `getExtensions_after_use`: two handlers under `/boot`. -/
theorem getExtensions_after_use_witness :
    (∀ entry ∈ [("a".toList, Example.plain), ("b".toList, Example.plain)],
        entry.1 ≠ [] ∧ sep ∉ entry.1) ∧
    (((Example.engine []).useAll
        ([("a".toList, Example.plain), ("b".toList, Example.plain)].map
          (fun entry => (withTrailingSep "/boot".toList ++ entry.1, entry.2)))
        ).getExtensions "/boot".toList).length = 2 :=
  ⟨by decide,
  (getExtensions_after_use (Example.engine []) "/boot".toList
    [("a".toList, Example.plain), ("b".toList, Example.plain)] rfl (by decide)).2⟩

/-! ## The phase engine: `run` -/

theorem completion_of_failsWith {σ : Type} (i : Invocation σ) (e : Value)
    (h : i.failsWith e) : ∃ d, i.completion = .invoked e d := by
  rcases h with h | ⟨hw, r, d, h⟩ | ⟨hw, cb, h⟩ | ⟨hw, cb, h⟩
  · exact ⟨_, completion_of_throws i e h⟩
  · exact ⟨d, by simp [Invocation.completion, h, hw, settle]⟩
  · exact ⟨.undefined, by simp [Invocation.completion, h, hw, settle]⟩
  · exact ⟨.undefined, by simp [Invocation.completion, h, hw, settle]⟩

/-- C1: when every call made succeeds, `run` calls the phase methods in
exactly this order: for each phase of the effective phase list in order, for
each direct child of `/boot` in registration order, the member named after the
phase if it is a function; each with the caller's context (the empty object
when the caller passed none), and nothing else. -/
theorem run_calls_in_phase_major_order {σ : Type} (self : Bootstrapper σ)
    (process : Process) (context : Option Context) (done : Option Callback) (s : σ)
    (hok : ∀ i ∈ (self.run process context done s).world.trace,
      i.completion.isSuccess = true) :
    (self.run process context done s).world.trace.map Invocation.toCall
        = expectedCalls (contextOrEmpty context) (self.getExtensions "/boot".toList)
            (self.effectivePhases (contextOrEmpty context)) ∧
      (∀ i ∈ (self.run process context done s).world.trace,
        i.context = contextOrEmpty context) ∧
      (∀ c, contextOrEmpty (some c) = c) := by
  have hmap : (self.run process context done s).world.trace.map Invocation.toCall
        = expectedCalls (contextOrEmpty context) (self.getExtensions "/boot".toList)
            (self.effectivePhases (contextOrEmpty context)) := by
    rcases run_shape self process context done s with
      ⟨_, _, hmap⟩ | ⟨pre, i, rest, ht, _, hi, _, _⟩
    · exact hmap
    · have := hok i (by rw [ht]; simp)
      rw [hi] at this
      exact absurd this (by simp)
  refine ⟨hmap, ?_, fun c => rfl⟩
  intro i hi
  have hmem : i.toCall ∈ expectedCalls (contextOrEmpty context)
      (self.getExtensions "/boot".toList) (self.effectivePhases (contextOrEmpty context)) := by
    rw [← hmap]; exact List.mem_map_of_mem _ hi
  simp only [expectedCalls, List.mem_flatMap, List.mem_filterMap] at hmem
  obtain ⟨phase, _, plugin, _, hcall⟩ := hmem
  unfold callOf at hcall
  split at hcall
  · simp only [Option.some.injEq] at hcall
    have := congrArg (fun c : Call σ => c.2.2.1) hcall
    simpa [Invocation.toCall] using this.symm
  · simp at hcall

/-- A witness of `run_calls_in_phase_major_order`: with phases `load`,
`compile`, extension 1 implementing both and extension 2 only `compile`, the
order is `ext1.load`, `ext1.compile`, `ext2.compile`. -/
theorem run_calls_in_phase_major_order_witness :
    (∀ i ∈ (Example.twoExtensions.run Example.process none none 0).world.trace,
        i.completion.isSuccess = true) ∧
      (Example.twoExtensions.run Example.process none none 0).world.trace.map
          Invocation.toCall
        = expectedCalls (contextOrEmpty none)
            (Example.twoExtensions.getExtensions "/boot".toList)
            (Example.twoExtensions.effectivePhases (contextOrEmpty none)) ∧
      (Example.twoExtensions.run Example.process none none 0).world.trace.map
          (fun i => (i.plugin.path, i.phase))
        = [("/boot/ext1".toList, "load"), ("/boot/ext1".toList, "compile"),
           ("/boot/ext2".toList, "compile")] :=
  ⟨by decide,
   (run_calls_in_phase_major_order Example.twoExtensions Example.process none none 0
      (by decide)).1,
   by decide⟩

/-- C2, as stated, fails for a falsy error value: `compile` of extension 1
returns a promise rejected with `undefined`, yet `compile` of extension 2 is
called after it and the run succeeds. -/
theorem rejection_with_undefined_goes_on :
    ((Example.withCompile (Example.rejecting .undefined)).run Example.process none none
        0).world.trace.map (fun i => (i.plugin.path, i.phase, i.effect))
      = [("/boot/ext1".toList, "load", .returns (.plain (.number 1)) none),
         ("/boot/ext1".toList, "compile", .returns (.thenable (.rejected .undefined)) none),
         ("/boot/ext2".toList, "compile", .returns (.plain (.number 3)) none)] ∧
    ((Example.withCompile (Example.rejecting .undefined)).run Example.process none none 0).done
      = .invoked .null .undefined ∧
    ((Example.withCompile (Example.rejecting .undefined)).run Example.process none none
        0).returned
      = .promise (.fulfilled .undefined) := by
  refine ⟨by decide, by decide, by decide⟩

/-- C2 (amended): when a call fails with a truthy error value `e` (the method
throws it, passes it to its callback, returns a thenable that is chained as a
promise is and rejects with it, or returns a thenable on which building the
chain throws it), no call follows it, all calls before it succeeded, the calls made are an
initial part of the phase-major order, and the outcome of the run is the
failure carrying exactly `e`. -/
theorem run_stops_at_first_failure {σ : Type} (self : Bootstrapper σ) (process : Process)
    (context : Option Context) (done : Option Callback) (s : σ)
    (pre post : List (Invocation σ)) (i : Invocation σ) (e : Value)
    (htrace : (self.run process context done s).world.trace = pre ++ i :: post)
    (hfail : i.failsWith e) (he : e.truthy = true) :
    post = [] ∧ (∀ j ∈ pre, j.completion.isSuccess = true) ∧
      (self.run process context done s).done = .invoked e .undefined ∧
      createPromiseCallback (self.run process context done s).done = .rejected e ∧
      ∃ rest, expectedCalls (contextOrEmpty context) (self.getExtensions "/boot".toList)
          (self.effectivePhases (contextOrEmpty context))
        = (pre ++ [i]).map Invocation.toCall ++ rest := by
  obtain ⟨d, hd⟩ := completion_of_failsWith i e hfail
  have hshape := run_shape self process context done s
  rw [htrace] at hshape
  obtain ⟨hpost, hpre, hc, hrest⟩ :=
    hshape.last_of_not_success (by simp [hd, Completion.isSuccess, he])
  rw [hd] at hc
  refine ⟨hpost, hpre, ?_, ?_, hrest⟩
  · simpa [Completion.errorOnly] using hc
  · rw [hc]; simp [Completion.errorOnly, createPromiseCallback, he]

/-- A witness of `run_stops_at_first_failure`: `compile` of extension 1
returns a promise rejected with an error object; `compile` of extension 2 is
not called and the run fails with that object. -/
theorem run_stops_at_first_failure_witness :
    ((Example.withCompile (Example.rejecting (.object 1))).run Example.process none none
        0).world.trace
      = [Example.ext1Load (Example.rejecting (.object 1))] ++
          Example.ext1Compile (Example.rejecting (.object 1))
            (.returns (.thenable (.rejected (.object 1))) none) :: [] ∧
    ((Example.withCompile (Example.rejecting (.object 1))).run Example.process none none
        0).done = .invoked (.object 1) .undefined ∧
    ((Example.withCompile (Example.returningUnchainable (.object 13))).run Example.process
        none none 0).world.trace.map (fun i => (i.plugin.path, i.phase, i.effect))
      = [("/boot/ext1".toList, "load", .returns (.plain (.number 1)) none),
         ("/boot/ext1".toList, "compile", .returns (.unchainable (.object 13)) none)] ∧
    ((Example.withCompile (Example.returningUnchainable (.object 13))).run Example.process
        none none 0).returned = .promise (.rejected (.object 13)) :=
  ⟨rfl,
   (run_stops_at_first_failure (Example.withCompile (Example.rejecting (.object 1)))
      Example.process none none 0 [Example.ext1Load (Example.rejecting (.object 1))] []
      (Example.ext1Compile (Example.rejecting (.object 1))
        (.returns (.thenable (.rejected (.object 1))) none))
      (.object 1) rfl (Or.inr (Or.inr (Or.inl ⟨rfl, none, rfl⟩))) rfl).2.2.1,
   by decide, by decide⟩

/-- C5, as stated, fails: the only handler called returns the plain value 7,
and the run succeeds carrying `undefined`, not 7. -/
theorem run_drops_the_returned_value :
    ((Example.single (Example.returning (.number 7))).run Example.process none none
        0).world.trace.map (fun i => (i.plugin.path, i.phase, i.effect))
      = [("/boot/ext1".toList, "load", .returns (.plain (.number 7)) none)] ∧
    ((Example.single (Example.returning (.number 7))).run Example.process none none 0).done
      = .invoked .null .undefined ∧
    ((Example.single (Example.returning (.number 7))).run Example.process none none
        0).returned
      = .promise (.fulfilled .undefined) ∧
    ((Example.single (Example.returning (.number 7))).run Example.process none none
        0).returned
      ≠ .promise (.fulfilled (.number 7)) := by
  refine ⟨by decide, by decide, by decide, by decide⟩

/-- C5 (amended): when every call made succeeds, the outcome of the run is a
success carrying `undefined`, whatever the handlers returned and also when no
handler ran: the callback is invoked with `(null)` and the promise is
fulfilled with `undefined`. -/
theorem run_success_carries_undefined {σ : Type} (self : Bootstrapper σ)
    (process : Process) (context : Option Context) (done : Option Callback) (s : σ)
    (hok : ∀ i ∈ (self.run process context done s).world.trace,
      i.completion.isSuccess = true) :
    (self.run process context done s).done = .invoked .null .undefined ∧
      createPromiseCallback (self.run process context done s).done = .fulfilled .undefined ∧
      (self.run process context none s).returned = .promise (.fulfilled .undefined) := by
  have hdone : (self.run process context done s).done = .invoked .null .undefined := by
    rcases run_shape self process context done s with
      ⟨hc, _, _⟩ | ⟨pre, i, rest, ht, _, hi, _, _⟩
    · exact hc
    · have := hok i (by rw [ht]; simp)
      rw [hi] at this
      exact absurd this (by simp)
  have hnone : (self.run process context none s).returned
      = .promise (createPromiseCallback (self.run process context done s).done) := rfl
  refine ⟨hdone, ?_, ?_⟩
  · rw [hdone]; simp [createPromiseCallback, Value.truthy]
  · rw [hnone, hdone]; simp [createPromiseCallback, Value.truthy]

/-- A witness of `run_success_carries_undefined`: the three calls of the two
extensions return 1, 2 and 3, and the promise is fulfilled with `undefined`. -/
theorem run_success_carries_undefined_witness :
    (∀ i ∈ (Example.twoExtensions.run Example.process none none 0).world.trace,
        i.completion.isSuccess = true) ∧
      (Example.twoExtensions.run Example.process none none 0).returned
        = .promise (.fulfilled .undefined) :=
  ⟨by decide,
   (run_success_carries_undefined Example.twoExtensions Example.process none none 0
      (by decide)).2.2⟩

/-- C6, as stated, fails for a falsy thrown value: `compile` of extension 1
throws `0`, yet `compile` of extension 2 is called after it and the run
succeeds. -/
theorem throw_of_zero_goes_on :
    ((Example.withCompile (Example.throwing (.number 0))).run Example.process none none
        0).world.trace.map (fun i => (i.plugin.path, i.phase, i.effect))
      = [("/boot/ext1".toList, "load", .returns (.plain (.number 1)) none),
         ("/boot/ext1".toList, "compile", .throws (.number 0)),
         ("/boot/ext2".toList, "compile", .returns (.plain (.number 3)) none)] ∧
    ((Example.withCompile (Example.throwing (.number 0))).run Example.process none none
        0).done
      = .invoked .null .undefined ∧
    ((Example.withCompile (Example.throwing (.number 0))).run Example.process none none
        0).returned
      = .promise (.fulfilled .undefined) := by
  refine ⟨by decide, by decide, by decide⟩

/-- C6 (amended): a value `e` thrown by a phase method, with or without the
callback passed, is caught and handed to the iteratee callback as `done(e)`;
when `e` is truthy this is the failure of that handler: no call follows it and
the run ends with the failed outcome carrying `e`. -/
theorem run_fails_on_truthy_throw {σ : Type} (self : Bootstrapper σ) (process : Process)
    (context : Option Context) (done : Option Callback) (s : σ)
    (pre post : List (Invocation σ)) (i : Invocation σ) (e : Value)
    (htrace : (self.run process context done s).world.trace = pre ++ i :: post)
    (hthrow : i.effect = .throws e) (he : e.truthy = true) :
    i.completion = .invoked e .undefined ∧ post = [] ∧
      (self.run process context done s).done = .invoked e .undefined ∧
      createPromiseCallback (self.run process context done s).done = .rejected e ∧
      (self.run process context none s).returned = .promise (.rejected e) := by
  have hd := completion_of_throws i e hthrow
  have hshape := run_shape self process context done s
  rw [htrace] at hshape
  obtain ⟨hpost, _, hc, _⟩ :=
    hshape.last_of_not_success (by simp [hd, Completion.isSuccess, he])
  rw [hd] at hc
  have hdone : (self.run process context done s).done = .invoked e .undefined := by
    simpa [Completion.errorOnly] using hc
  have hnone : (self.run process context none s).returned
      = .promise (createPromiseCallback (self.run process context done s).done) := rfl
  refine ⟨hd, hpost, hdone, ?_, ?_⟩
  · rw [hdone]; simp [createPromiseCallback, he]
  · rw [hnone, hdone]; simp [createPromiseCallback, he]

/-- A witness of `run_fails_on_truthy_throw`: `compile` of extension 1 throws
an error object; the run is rejected with it after two calls. -/
theorem run_fails_on_truthy_throw_witness :
    ((Example.withCompile (Example.throwing (.object 1))).run Example.process none none
        0).world.trace
      = [Example.ext1Load (Example.throwing (.object 1))] ++
          Example.ext1Compile (Example.throwing (.object 1)) (.throws (.object 1)) :: [] ∧
    ((Example.withCompile (Example.throwing (.object 1))).run Example.process none none
        0).returned = .promise (.rejected (.object 1)) :=
  ⟨rfl,
   (run_fails_on_truthy_throw (Example.withCompile (Example.throwing (.object 1)))
      Example.process none none 0 [Example.ext1Load (Example.throwing (.object 1))] []
      (Example.ext1Compile (Example.throwing (.object 1)) (.throws (.object 1)))
      (.object 1) rfl rfl rfl).2.2.2.2⟩

/-- C7, as stated, fails in what `run` returns when a callback is supplied:
it returns the `promise` property of that callback, here an object, not
`undefined`. -/
theorem run_returns_promise_of_callback :
    (Example.twoExtensions.run Example.process none (some { promise := .object 5 }) 0).returned
      = .value (.object 5) ∧
    (Example.twoExtensions.run Example.process none (some { promise := .object 5 }) 0).returned
      ≠ .value .undefined := by
  refine ⟨by decide, by decide⟩

/-- C7 (amended): with and without a callback `run` makes the same calls and
reaches the same outcome. With a callback, the callback is invoked with
`(error)` on failure and with `(null)` on success, and `run` returns the value
of the callback's property `promise`, which is `undefined` for a function
without that property. Without a callback, `run` returns a promise that is
rejected with that same error or fulfilled with that same result. -/
theorem run_delivery_styles_agree {σ : Type} (self : Bootstrapper σ) (process : Process)
    (context : Option Context) (callback : Callback) (s : σ) :
    (self.run process context (some callback) s).done
        = (self.run process context none s).done ∧
      (self.run process context (some callback) s).world
        = (self.run process context none s).world ∧
      (self.run process context (some callback) s).self
        = (self.run process context none s).self ∧
      (self.run process context (some callback) s).returned = .value callback.promise ∧
      (self.run process context (some { promise := .undefined }) s).returned
        = .value .undefined ∧
      ((self.run process context (some callback) s).done = .never ∧
          (self.run process context none s).returned = .promise .pending ∨
        (∃ e, e.truthy = true ∧
          (self.run process context (some callback) s).done = .invoked e .undefined ∧
          (self.run process context none s).returned = .promise (.rejected e)) ∨
        (self.run process context (some callback) s).done = .invoked .null .undefined ∧
          (self.run process context none s).returned
            = .promise (.fulfilled .undefined)) := by
  refine ⟨rfl, rfl, rfl, rfl, rfl, ?_⟩
  have hnone : (self.run process context none s).returned
      = .promise (createPromiseCallback (self.run process context (some callback) s).done) :=
    rfl
  rw [hnone]
  rcases run_shape self process context (some callback) s with
    ⟨hc, _, _⟩ | ⟨pre, i, rest, _, _, hi, hc, _⟩
  · right; right
    exact ⟨hc, by rw [hc]; simp [createPromiseCallback, Value.truthy]⟩
  · rcases errorOnly_of_not_success _ hi with ⟨hn, _⟩ | ⟨e, d, _, he, hn⟩
    · left
      rw [hn] at hc
      exact ⟨hc, by rw [hc]; simp [createPromiseCallback]⟩
    · right; left
      rw [hn] at hc
      exact ⟨e, he, hc, by rw [hc]; simp [createPromiseCallback, he]⟩

/-- C10: the phase list `run` iterates is `context.phases` when the context
has that property, also when it is the empty list (then no handler is called
and the run succeeds), and the phase list of the engine otherwise, also when
no context is passed: the calls made are the expected calls over that list,
all of them when every call succeeds, and up to the first call that does not
succeed otherwise. The phase list of the engine is the same after the run, and
a later run without override iterates it. -/
theorem run_effective_phases {σ : Type} (self : Bootstrapper σ) (process : Process)
    (done : Option Callback) (s : σ) (ref : Option Nat) (phases : List String) :
    LoopShape
      (expectedCalls { ref := ref, phases := some phases } (self.getExtensions "/boot".toList)
        phases)
      (self.run process (some { ref := ref, phases := some phases }) done s).world.trace
      (self.run process (some { ref := ref, phases := some phases }) done s).done ∧
    ((∀ i ∈ (self.run process (some { ref := ref, phases := some phases }) done s).world.trace,
        i.completion.isSuccess = true) →
      (self.run process (some { ref := ref, phases := some phases }) done s).world.trace.map
          Invocation.toCall
        = expectedCalls { ref := ref, phases := some phases }
            (self.getExtensions "/boot".toList) phases) ∧
    LoopShape
      (expectedCalls { ref := ref, phases := none } (self.getExtensions "/boot".toList)
        self.phases)
      (self.run process (some { ref := ref, phases := none }) done s).world.trace
      (self.run process (some { ref := ref, phases := none }) done s).done ∧
    ((∀ i ∈ (self.run process (some { ref := ref, phases := none }) done s).world.trace,
        i.completion.isSuccess = true) →
      (self.run process (some { ref := ref, phases := none }) done s).world.trace.map
          Invocation.toCall
        = expectedCalls { ref := ref, phases := none }
            (self.getExtensions "/boot".toList) self.phases) ∧
    LoopShape
      (expectedCalls { ref := none, phases := none } (self.getExtensions "/boot".toList)
        self.phases)
      (self.run process none done s).world.trace
      (self.run process none done s).done ∧
    ((∀ i ∈ (self.run process none done s).world.trace, i.completion.isSuccess = true) →
      (self.run process none done s).world.trace.map Invocation.toCall
        = expectedCalls { ref := none, phases := none }
            (self.getExtensions "/boot".toList) self.phases) ∧
    ((self.run process (some { ref := ref, phases := some phases }) done s).done,
        (self.run process (some { ref := ref, phases := some phases }) done s).world)
      = runPhases { ref := ref, phases := some phases } (self.getExtensions "/boot".toList)
          phases { state := s, trace := [] } ∧
    ((self.run process (some { ref := ref, phases := none }) done s).done,
        (self.run process (some { ref := ref, phases := none }) done s).world)
      = runPhases { ref := ref, phases := none } (self.getExtensions "/boot".toList)
          self.phases { state := s, trace := [] } ∧
    ((self.run process none done s).done, (self.run process none done s).world)
      = runPhases { ref := none, phases := none } (self.getExtensions "/boot".toList)
          self.phases { state := s, trace := [] } ∧
    (self.run process (some { ref := ref, phases := some [] }) done s).world.trace = [] ∧
    (self.run process (some { ref := ref, phases := some [] }) done s).done
      = .invoked .null .undefined ∧
    (self.run process (some { ref := ref, phases := some phases }) done s).self.phases
      = self.phases ∧
    (∀ i ∈ (self.run process (some { ref := ref, phases := some phases }) done s).world.trace,
      i.phase ∈ phases) ∧
    (∀ i ∈ (self.run process none done s).world.trace, i.phase ∈ self.phases) ∧
    (Example.twoExtensions.run Example.process
        (some { ref := some 1, phases := some ["compile", "load"] }) none 0).world.trace.map
        (fun i => (i.plugin.path, i.phase))
      = [("/boot/ext1".toList, "compile"), ("/boot/ext2".toList, "compile"),
         ("/boot/ext1".toList, "load")] ∧
    (Example.twoExtensions.run Example.process
        (some { ref := some 1, phases := some [] }) none 0).world.trace.length = 0 ∧
    (Example.twoExtensions.run Example.process
        (some { ref := some 1, phases := none }) none 0).world.trace.map
        (fun i => (i.plugin.path, i.phase))
      = [("/boot/ext1".toList, "load"), ("/boot/ext1".toList, "compile"),
         ("/boot/ext2".toList, "compile")] ∧
    ((Example.twoExtensions.run Example.process
        (some { ref := some 1, phases := some ["compile", "load"] }) none 0).self.run
        Example.process none none 0).world.trace.map (fun i => (i.plugin.path, i.phase))
      = [("/boot/ext1".toList, "load"), ("/boot/ext1".toList, "compile"),
         ("/boot/ext2".toList, "compile")] := by
  have hall : ∀ (context : Option Context),
      (∀ i ∈ (self.run process context done s).world.trace, i.completion.isSuccess = true) →
      (self.run process context done s).world.trace.map Invocation.toCall
        = expectedCalls (contextOrEmpty context) (self.getExtensions "/boot".toList)
            (self.effectivePhases (contextOrEmpty context)) := by
    intro context hok
    rcases run_shape self process context done s with
      ⟨_, _, hmap⟩ | ⟨pre, i, rest, ht, _, hi, _, _⟩
    · exact hmap
    · have := hok i (by rw [ht]; simp)
      rw [hi] at this
      exact absurd this (by simp)
  have hphase : ∀ (context : Option Context),
      ∀ i ∈ (self.run process context done s).world.trace,
        i.phase ∈ self.effectivePhases (contextOrEmpty context) := by
    intro context i hi
    have h := (mem_expectedCalls _ _ _ _
      (trace_mem_expectedCalls self process context done s i hi)).2.1
    simpa [Invocation.toCall] using h
  exact ⟨run_shape self process (some { ref := ref, phases := some phases }) done s,
    hall (some { ref := ref, phases := some phases }),
    run_shape self process (some { ref := ref, phases := none }) done s,
    hall (some { ref := ref, phases := none }),
    run_shape self process none done s, hall none,
    rfl, rfl, rfl, rfl, rfl, rfl,
    hphase (some { ref := ref, phases := some phases }), hphase none,
    by decide, by decide, by decide, by decide⟩

/-! ## Construction -/

theorem registerPlugins_ok {σ : Type} (require : Require σ) (options : Options)
    (handlers : String → Handler σ) (names : List String) (self : Bootstrapper σ)
    (hload : ∀ n ∈ names, ∃ f, require ("./plugins/" ++ n) = .ok f ∧
      f options = .ok (handlers n)) :
    registerPlugins require options names self
      = .ok { self with
          plugins := self.plugins ++
            names.map (fun n => { path := "/boot/".toList ++ n.toList, handler := handlers n }) } := by
  induction names generalizing self with
  | nil => simp [registerPlugins]
  | cons n rest ih =>
    obtain ⟨f, hf, hh⟩ := hload n (List.mem_cons_self _ _)
    have := ih (self.use ("/boot/".toList ++ n.toList) (handlers n))
      (fun k hk => hload k (List.mem_cons_of_mem _ hk))
    simp only [registerPlugins, hf, hh, this]
    simp [Bootstrapper.use]

theorem registerPlugins_frame {σ : Type} (require : Require σ) (options : Options)
    (names : List String) (self engine : Bootstrapper σ)
    (h : registerPlugins require options names self = .ok engine) :
    engine.phases = self.phases ∧ engine.options = self.options := by
  induction names generalizing self with
  | nil =>
    simp only [registerPlugins, Except.ok.injEq] at h
    subst h; exact ⟨rfl, rfl⟩
  | cons n rest ih =>
    simp only [registerPlugins] at h
    split at h
    · simp at h
    · split at h
      · simp at h
      · rename_i handler _
        exact ih (self.use ("/boot/".toList ++ n.toList) handler) h

theorem registerPlugins_error {σ : Type} (require : Require σ) (options : Options)
    (names : List String) (self : Bootstrapper σ) (e : ConstructionError)
    (h : registerPlugins require options names self = .error e) : ∃ v, e = .thrown v := by
  induction names generalizing self with
  | nil => simp [registerPlugins] at h
  | cons n rest ih =>
    simp only [registerPlugins] at h
    split at h
    · simp only [Except.error.injEq] at h; exact ⟨_, h.symm⟩
    · split at h
      · simp only [Except.error.injEq] at h; exact ⟨_, h.symm⟩
      · exact ih _ h

/-- The errors of the constructor: the assertion on the phases, for a value
that is no array; the two `TypeError`s; or what loading a plugin throws. -/
theorem new_error {σ : Type} (process : Process) (require : Require σ)
    (arg : ConstructorArg) (e : ConstructionError)
    (h : Bootstrapper.new process require arg = .error e) :
    (e = .invalidPhases ∧
        (arg.toConfig.phases.or (.array builtinPhases)).isArray = false) ∨
      e = .noStringConversion ∨ e = .notAFunction ∨ ∃ v, e = .thrown v := by
  unfold Bootstrapper.new at h
  simp only [NamesOption.isArray, if_true] at h
  generalize arg.toConfig.phases.or (.array builtinPhases) = P at h ⊢
  generalize arg.toConfig.plugins.or (.array builtinPlugins) = B at h
  cases P with
  | array phaseNames =>
    cases B with
    | array names =>
      simp only [NamesOption.hasString, if_true] at h
      exact Or.inr (Or.inr (Or.inr (registerPlugins_error _ _ _ _ _ h)))
    | forEachable names =>
      simp only [NamesOption.hasString, if_true] at h
      exact Or.inr (Or.inr (Or.inr (registerPlugins_error _ _ _ _ _ h)))
    | unprintable =>
      simp only [NamesOption.hasString, if_true, Bool.false_eq_true, if_false,
        Except.error.injEq] at h
      exact Or.inr (Or.inl h.symm)
    | value v =>
      simp only [NamesOption.hasString, if_true, Except.error.injEq] at h
      exact Or.inr (Or.inr (Or.inl h.symm))
  | forEachable names =>
    simp only [NamesOption.hasString, if_true, Except.error.injEq] at h
    exact Or.inl ⟨h.symm, rfl⟩
  | unprintable =>
    simp only [NamesOption.hasString, Bool.false_eq_true, if_false, Except.error.injEq] at h
    exact Or.inr (Or.inl h.symm)
  | value v =>
    simp only [NamesOption.hasString, if_true, Except.error.injEq] at h
    exact Or.inl ⟨h.symm, rfl⟩

/-- The engine of the constructor has the phase list the constructor chose. -/
theorem new_phases {σ : Type} (process : Process) (require : Require σ)
    (arg : ConstructorArg) (engine : Bootstrapper σ)
    (h : Bootstrapper.new process require arg = .ok engine) :
    arg.toConfig.phases.or (.array builtinPhases) = .array engine.phases := by
  unfold Bootstrapper.new at h
  simp only [NamesOption.isArray, if_true] at h
  generalize arg.toConfig.phases.or (.array builtinPhases) = P at h ⊢
  generalize arg.toConfig.plugins.or (.array builtinPlugins) = B at h
  cases P with
  | array phaseNames =>
    cases B with
    | array names =>
      simp only [NamesOption.hasString, if_true] at h
      rw [(registerPlugins_frame _ _ _ _ _ h).1]
    | forEachable names =>
      simp only [NamesOption.hasString, if_true] at h
      rw [(registerPlugins_frame _ _ _ _ _ h).1]
    | unprintable => simp [NamesOption.hasString] at h
    | value v => simp [NamesOption.hasString] at h
  | forEachable names => simp [NamesOption.hasString] at h
  | unprintable => simp [NamesOption.hasString] at h
  | value v => simp [NamesOption.hasString] at h

/-- C11: the constructor never throws the assertion error `Invalid plugins`:
the assertion of lines 59-60 is on the registry, which is the empty array. For
the plugins option `'model'`, a string, construction fails with the
`TypeError` of the missing `forEach`; for a `Set` of names an engine is
produced. -/
theorem new_never_asserts_plugins :
    (∀ (process : Process) (require : Require Nat) (arg : ConstructorArg),
      constructionError (Bootstrapper.new process require arg) ≠ some .invalidPlugins) ∧
    constructionError (Bootstrapper.new Example.process Example.require
        (.object (Example.config (.value .undefined) (.value (.string "model")))))
      = some .notAFunction ∧
    (constructed (Bootstrapper.new Example.process Example.require
        (.object (Example.config (.value .undefined) (.forEachable ["model"]))))).map
        (fun engine => engine.plugins.map (fun r => r.path))
      = some ["/boot/model".toList] := by
  refine ⟨?_, by decide, by decide⟩
  intro process require arg h
  cases hr : Bootstrapper.new process require arg with
  | ok engine => rw [hr] at h; simp [constructionError] at h
  | error e =>
    rw [hr] at h
    simp only [constructionError, Option.some.injEq] at h
    subst h
    rcases new_error process require arg _ hr with ⟨h1, _⟩ | h1 | h1 | ⟨v, h1⟩ <;>
      simp at h1

/-- C12, as stated, fails for a phases option that is supplied, is no array
and is falsy: with `phases: 0` and with `phases: ''` construction succeeds and
the engine has the five built-in phases. -/
theorem new_takes_falsy_phases_as_omitted :
    (constructed (Bootstrapper.new Example.process Example.require
        (.object (Example.config (.value (.number 0)) (.value .undefined))))).map
        (fun engine => engine.phases)
      = some ["load", "compile", "starting", "start", "started"] ∧
    constructionError (Bootstrapper.new Example.process Example.require
        (.object (Example.config (.value (.number 0)) (.value .undefined)))) = none ∧
    (constructed (Bootstrapper.new Example.process Example.require
        (.object (Example.config (.value (.string "")) (.value .undefined))))).map
        (fun engine => engine.phases)
      = some ["load", "compile", "starting", "start", "started"] ∧
    (Example.config (.value (.number 0)) (.value .undefined)).phases.isArray = false := by
  refine ⟨by decide, by decide, by decide, by decide⟩

/-- C12 (amended): a phases option that is truthy, is no array and has a
string conversion makes construction fail with the assertion error
`Invalid phases`, whatever the module loader does, so before any plugin is
loaded or registered. A truthy value without string conversion fails before
that with the `TypeError` of building the message; a falsy value is taken as
an omitted option, as line 56 does. With an array, construction does not fail
with the assertion error, and the phase list of the engine produced is that
array. -/
theorem new_asserts_phases {σ : Type} (process : Process) (require : Require σ)
    (config : Config) (hsupplied : config.phases.truthy = true)
    (hnot : config.phases.isArray = false) (hstring : config.phases.hasString = true) :
    Bootstrapper.new process require (.object config) = .error .invalidPhases ∧
    Bootstrapper.new process require (.object { config with phases := .unprintable })
      = .error .noStringConversion ∧
    (∀ v : Value, v.truthy = false →
      Bootstrapper.new process require (.object { config with phases := .value v })
        = Bootstrapper.new process require
            (.object { config with phases := .array builtinPhases })) ∧
    (∀ names : List String,
      constructionError
          (Bootstrapper.new process require (.object { config with phases := .array names }))
        ≠ some .invalidPhases ∧
      ∀ engine, Bootstrapper.new process require (.object { config with phases := .array names })
          = .ok engine → engine.phases = names) := by
  refine ⟨?_, ?_, ?_, ?_⟩
  · unfold Bootstrapper.new
    simp only [ConstructorArg.toConfig, NamesOption.or, hsupplied, if_true, hstring]
    cases hp : config.phases with
    | array names => rw [hp] at hnot; simp [NamesOption.isArray] at hnot
    | forEachable names => rfl
    | unprintable => rw [hp] at hstring
    | value v => rfl
  · simp [Bootstrapper.new, ConstructorArg.toConfig, NamesOption.or, NamesOption.truthy,
      NamesOption.hasString]
  · intro v hv
    simp [Bootstrapper.new, ConstructorArg.toConfig, NamesOption.or, NamesOption.truthy, hv]
  · intro names
    constructor
    · intro h
      cases hr : Bootstrapper.new process require
          (.object { config with phases := .array names }) with
      | ok engine => rw [hr] at h; simp [constructionError] at h
      | error e =>
        rw [hr] at h
        simp only [constructionError, Option.some.injEq] at h
        subst h
        rcases new_error process require _ _ hr with ⟨_, h1⟩ | h1 | h1 | ⟨v, h1⟩
        · simp [ConstructorArg.toConfig, NamesOption.or, NamesOption.truthy,
            NamesOption.isArray] at h1
        · simp at h1
        · simp at h1
        · simp at h1
    · intro engine h
      have := new_phases process require _ engine h
      simpa [ConstructorArg.toConfig, NamesOption.or, NamesOption.truthy] using this.symm

/-- A witness of `new_asserts_phases`: the phases option `'load'`, a string,
with a module loader under which nothing can be loaded. -/
theorem new_asserts_phases_witness :
    (Example.config (.value (.string "load")) (.value .undefined)).phases.truthy = true ∧
    (Example.config (.value (.string "load")) (.value .undefined)).phases.isArray = false ∧
    (Example.config (.value (.string "load")) (.value .undefined)).phases.hasString = true ∧
    constructionError (Bootstrapper.new Example.process Example.requireFails
        (.object (Example.config (.value (.string "load")) (.value .undefined))))
      = some .invalidPhases :=
  ⟨by decide, by decide, by decide, by
    rw [(new_asserts_phases Example.process Example.requireFails
      (Example.config (.value (.string "load")) (.value .undefined)) (by decide) (by decide)
      (by decide)).1]
    rfl⟩

/-- C13: `addPhases` with a name that is in the phase list already returns the
list unchanged and leaves the engine as it was, so no name is duplicated; for
the built-in phases and `[start]` the result is the five built-in phases. The
value returned is the phase list of the engine after the call, and a call
without argument merges the empty list. -/
theorem addPhases_present_name {σ : Type} (self : Bootstrapper σ) (name : String)
    (hname : name ∈ self.phases) :
    (self.addPhases (some [name])).1 = self.phases ∧
    (self.addPhases (some [name])).2 = self ∧
    (∀ names, (self.addPhases names).1 = (self.addPhases names).2.phases) ∧
    self.addPhases none = self.addPhases (some []) ∧
    ((Example.engine builtinPhases).addPhases (some ["start"])).1
      = ["load", "compile", "starting", "start", "started"] ∧
    ((Example.engine builtinPhases).addPhases (some ["start"])).2.phases
      = ["load", "compile", "starting", "start", "started"] ∧
    (((Example.engine builtinPhases).addPhases (some ["start"])).1).Nodup := by
  have hmerge : mergePhaseNameLists self.phases [name] = self.phases := by
    simp [mergePhaseNameLists, mergeFrom, hname]
  refine ⟨?_, ?_, fun _ => rfl, rfl, by decide, by decide, by decide⟩
  · simp [Bootstrapper.addPhases, hmerge]
  · simp [Bootstrapper.addPhases, hmerge]

/-- A witness of `addPhases_present_name`: `start` on the built-in phases. -/
theorem addPhases_present_name_witness :
    "start" ∈ (Example.engine builtinPhases).phases ∧
    ((Example.engine builtinPhases).addPhases (some ["start"])).1
      = (Example.engine builtinPhases).phases :=
  ⟨by decide, (addPhases_present_name (Example.engine builtinPhases) "start" (by decide)).1⟩

/-- C19: construction with the list `L` of plugin names (the eight built-in
names when the plugins option is omitted), each name non-empty and without
`'/'`, each factory loading and returning a handler, gives an engine whose
registry holds, in the order of `L`, one registration per name, at the path
`/boot/` + name with the handler the factory of that name returned for the
options; `getExtensions('/boot')` returns exactly these; and with the phases
option omitted the phase list is the five built-in phases. -/
theorem new_registers_plugins {σ : Type} (process : Process) (require : Require σ)
    (config : Config) (names : List String) (handlers : String → Handler σ)
    (hplugins : config.plugins = .array names ∨
      (config.plugins = .value .undefined ∧ names = builtinPlugins))
    (hphases : config.phases = .value .undefined ∨ ∃ phases, config.phases = .array phases)
    (hnames : ∀ n ∈ names, n ≠ "" ∧ sep ∉ n.toList)
    (hload : ∀ n ∈ names, ∃ f, require ("./plugins/" ++ n) = .ok f ∧
      f (Options.withDefaults
          { appRootDir := config.appRootDir, appConfigRootDir := config.appConfigRootDir,
            env := config.env, rootDir := none } process) = .ok (handlers n)) :
    ∃ engine, Bootstrapper.new process require (.object config) = .ok engine ∧
      engine.plugins
        = names.map (fun n => { path := "/boot/".toList ++ n.toList, handler := handlers n }) ∧
      engine.getExtensions "/boot".toList = engine.plugins ∧
      engine.phases = (match config.phases with
        | .array phases => phases
        | _ => ["load", "compile", "starting", "start", "started"]) := by
  have hreg := fun self => registerPlugins_ok require _ handlers names self hload
  have hbuiltin : config.plugins.or (.array builtinPlugins) = .array names := by
    rcases hplugins with h | ⟨h, rfl⟩
    · simp [h, NamesOption.or, NamesOption.truthy]
    · simp [h, NamesOption.or, NamesOption.truthy, Value.truthy]
  have hext : ∀ engine : Bootstrapper σ,
      engine.plugins
        = names.map (fun n => { path := "/boot/".toList ++ n.toList, handler := handlers n }) →
      engine.getExtensions "/boot".toList = engine.plugins := by
    intro engine hp
    rw [getExtensions_eq_filter, hp]
    apply List.filter_eq_self.2
    intro r hr
    obtain ⟨n, hn, rfl⟩ := List.mem_map.1 hr
    obtain ⟨hne, hsep⟩ := hnames n hn
    have hq : withTrailingSep "/boot".toList = "/boot/".toList := by decide
    have hne2 : n.data ≠ [] := by
      intro h
      apply hne
      cases n
      simp only at h
      subst h
      rfl
    have hsep2 : sep ∉ n.data := hsep
    rw [hq]
    simp [isDirectChild, hne2, hsep2]
  rcases hphases with hph | ⟨phases, hph⟩
  · refine ⟨{ plugins := names.map
                (fun n => { path := "/boot/".toList ++ n.toList, handler := handlers n }),
              options := Options.withDefaults
                { appRootDir := config.appRootDir, appConfigRootDir := config.appConfigRootDir,
                  env := config.env, rootDir := none } process,
              phases := builtinPhases }, ?_, rfl, hext _ rfl, by rw [hph]; rfl⟩
    unfold Bootstrapper.new
    simp only [ConstructorArg.toConfig]
    rw [hbuiltin, hph]
    simp [NamesOption.or, NamesOption.truthy, Value.truthy, NamesOption.isArray,
      NamesOption.hasString, hreg]
  · refine ⟨{ plugins := names.map
                (fun n => { path := "/boot/".toList ++ n.toList, handler := handlers n }),
              options := Options.withDefaults
                { appRootDir := config.appRootDir, appConfigRootDir := config.appConfigRootDir,
                  env := config.env, rootDir := none } process,
              phases := phases }, ?_, rfl, hext _ rfl, by rw [hph]⟩
    unfold Bootstrapper.new
    simp only [ConstructorArg.toConfig]
    rw [hbuiltin, hph]
    simp [NamesOption.or, NamesOption.truthy, Value.truthy, NamesOption.isArray,
      NamesOption.hasString, hreg]

/-- A witness of `new_registers_plugins`: the defaults, with every plugin
module exporting a factory that returns a handler. -/
theorem new_registers_plugins_witness :
    (∀ n ∈ builtinPlugins, n ≠ "" ∧ sep ∉ n.toList) ∧
    (constructed (Bootstrapper.new Example.process Example.require
        (.object (Example.config (.value .undefined) (.value .undefined))))).map
        (fun engine => (engine.plugins.map (fun r => String.mk r.path), engine.phases))
      = some (["/boot/application", "/boot/datasource", "/boot/model", "/boot/mixin",
               "/boot/middleware", "/boot/component", "/boot/boot-script", "/boot/swagger"],
              ["load", "compile", "starting", "start", "started"]) ∧
    ∃ engine, Bootstrapper.new Example.process Example.require
        (.object (Example.config (.value .undefined) (.value .undefined))) = .ok engine ∧
      engine.plugins = builtinPlugins.map
        (fun n => { path := "/boot/".toList ++ n.toList, handler := Example.plain }) :=
  ⟨by decide, by decide, by
    obtain ⟨engine, h1, h2, _⟩ := new_registers_plugins Example.process Example.require
      (Example.config (.value .undefined) (.value .undefined)) builtinPlugins
      (fun _ => Example.plain) (Or.inr ⟨rfl, rfl⟩) (Or.inl rfl) (by decide)
      (fun n _ => ⟨fun _ => .ok Example.plain, rfl, rfl⟩)
    exact ⟨engine, h1, h2⟩⟩

/-! ## The phase engine: skipping, call styles, frame -/

theorem eachSeries_congr {α ω : Type} (f g : α → ω → Completion × ω) (items : List α)
    (h : ∀ x ∈ items, ∀ w, f x w = g x w) (w : ω) :
    eachSeries f items w = eachSeries g items w := by
  induction items generalizing w with
  | nil => rfl
  | cons x rest ih =>
    have hx := h x (List.mem_cons_self _ _) w
    have hrest := fun w1 => ih (fun y hy => h y (List.mem_cons_of_mem _ hy)) w1
    simp only [eachSeries, hx, hrest]

theorem eachSeries_skip {α ω : Type} (f : α → ω → Completion × ω) (a b : List α) (x : α)
    (h : ∀ w, f x w = (.invoked .undefined .undefined, w)) (w : ω) :
    eachSeries f (a ++ x :: b) w = eachSeries f (a ++ b) w := by
  induction a generalizing w with
  | nil => simp [eachSeries, h, Value.truthy]
  | cons y rest ih =>
    have ih1 : ∀ w, eachSeries f (rest.append (x :: b)) w = eachSeries f (rest.append b) w := ih
    simp only [List.cons_append, eachSeries, ih1]

theorem invokePlugin_skip {σ : Type} (context : Context) (phase : String) (plugin : Plugin σ)
    (h : callOf context phase plugin = none) (w : World σ) :
    invokePlugin context phase plugin w = (.invoked .undefined .undefined, w) := by
  unfold callOf at h
  unfold invokePlugin
  cases hm : plugin.handler.member phase with
  | absent => rfl
  | notCallable v => rfl
  | function m => rw [hm] at h; simp at h

/-- Every call the inner loop records is a call of the member named after the
phase. -/
theorem eachSeries_plugins_recorded {σ : Type} (context : Context) (phase : String)
    (bootPlugins : List (Plugin σ)) (w : World σ) :
    ∃ t, (eachSeries (fun plugin w => invokePlugin context phase plugin w) bootPlugins w).2.trace
          = w.trace ++ t ∧ ∀ i ∈ t, i.isCallOfMember context := by
  induction bootPlugins generalizing w with
  | nil => exact ⟨[], by simp [eachSeries], by simp⟩
  | cons plugin rest ih =>
    cases hm : plugin.handler.member phase with
    | absent =>
      obtain ⟨t, ht, hrec⟩ := ih w
      exact ⟨t, by simpa [eachSeries, invokePlugin, hm, Value.truthy] using ht, hrec⟩
    | notCallable v =>
      obtain ⟨t, ht, hrec⟩ := ih w
      exact ⟨t, by simpa [eachSeries, invokePlugin, hm, Value.truthy] using ht, hrec⟩
    | function method =>
      let i : Invocation σ :=
        { plugin := plugin, phase := phase, context := context,
          withCallback := decide (method.length = 2),
          effect := (method.call context w.state).1 }
      let w1 : World σ := { state := (method.call context w.state).2, trace := w.trace ++ [i] }
      have hi : i.isCallOfMember context := ⟨method, w.state, hm, rfl, rfl, rfl⟩
      have hstep : invokePlugin context phase plugin w = (settle i.withCallback i.effect, w1) := by
        simp [invokePlugin, hm, i, w1]
      cases hc : settle i.withCallback i.effect with
      | invoked err data =>
        by_cases herr : err.truthy = true
        · refine ⟨[i], by simp [eachSeries, hstep, hc, herr, w1], ?_⟩
          intro j hj
          rw [List.mem_singleton] at hj
          subst hj; exact hi
        · obtain ⟨t, ht, hrec⟩ := ih w1
          refine ⟨i :: t, by simpa [eachSeries, hstep, hc, herr, w1] using ht, ?_⟩
          intro j hj
          rcases List.mem_cons.1 hj with rfl | hj
          · exact hi
          · exact hrec j hj
      | never =>
        refine ⟨[i], by simp [eachSeries, hstep, hc, w1], ?_⟩
        intro j hj
        rw [List.mem_singleton] at hj
        subst hj; exact hi

/-- Every call the two nested loops record is a call of the member named after
the phase. -/
theorem runPhases_recorded {σ : Type} (context : Context) (bootPlugins : List (Plugin σ))
    (phases : List String) (w : World σ) :
    ∃ t, (runPhases context bootPlugins phases w).2.trace = w.trace ++ t ∧
      ∀ i ∈ t, i.isCallOfMember context := by
  induction phases generalizing w with
  | nil => exact ⟨[], by simp [runPhases, eachSeries], by simp⟩
  | cons phase rest ih =>
    obtain ⟨t1, ht1, hrec1⟩ := eachSeries_plugins_recorded context phase bootPlugins w
    generalize hr : eachSeries (fun plugin w => invokePlugin context phase plugin w)
      bootPlugins w = r at ht1
    obtain ⟨c, w1⟩ := r
    have hunfold : runPhases context bootPlugins (phase :: rest) w
        = match c with
          | .invoked err _ =>
            if err.truthy then (.invoked err .undefined, w1)
            else runPhases context bootPlugins rest w1
          | .never => (.never, w1) := by
      simp only [runPhases, eachSeries, hr]
      cases c <;> rfl
    rw [hunfold]
    simp only at ht1
    cases c with
    | invoked err data =>
      by_cases herr : err.truthy = true
      · exact ⟨t1, by simpa [herr] using ht1, hrec1⟩
      · obtain ⟨t2, ht2, hrec2⟩ := ih w1
        refine ⟨t1 ++ t2, by simpa [herr, ht1, List.append_assoc] using ht2, ?_⟩
        intro j hj
        rcases List.mem_append.1 hj with hj | hj
        · exact hrec1 j hj
        · exact hrec2 j hj
    | never => exact ⟨t1, ht1, hrec1⟩

theorem run_isCallOfMember {σ : Type} (self : Bootstrapper σ) (process : Process)
    (context : Option Context) (done : Option Callback) (s : σ) (i : Invocation σ)
    (hi : i ∈ (self.run process context done s).world.trace) :
    i.isCallOfMember (contextOrEmpty context) := by
  obtain ⟨t, ht, hrec⟩ := runPhases_recorded (contextOrEmpty context)
    (self.getExtensions "/boot".toList) (self.effectivePhases (contextOrEmpty context))
    { state := s, trace := [] }
  simp only [List.nil_append] at ht
  have htrace : (self.run process context done s).world.trace = t := ht
  rw [htrace] at hi
  exact hrec i hi

/-- What the completion of a recorded call means for the run. -/
theorem run_decides {σ : Type} (self : Bootstrapper σ) (process : Process)
    (context : Option Context) (done : Option Callback) (s : σ)
    (pre post : List (Invocation σ)) (i : Invocation σ)
    (htrace : (self.run process context done s).world.trace = pre ++ i :: post) :
    i.completion.decides (self.run process context done s).done post := by
  have hshape := run_shape self process context done s
  rw [htrace] at hshape
  cases hs : i.completion.isSuccess with
  | false =>
    obtain ⟨hpost, _, hc, _⟩ := hshape.last_of_not_success hs
    rcases errorOnly_of_not_success _ hs with ⟨hn, hnever⟩ | ⟨e, d, hinv, he, hn⟩
    · rw [hnever]
      rw [hn] at hc
      exact ⟨hpost, hc⟩
    · rw [hinv]
      rw [hn] at hc
      simp only [Completion.decides, he, if_true]
      exact ⟨hpost, hc⟩
  | true =>
    cases hc : i.completion with
    | never => rw [hc] at hs; simp [Completion.isSuccess] at hs
    | invoked err data =>
      rw [hc] at hs
      have herr : err.truthy = false := by simpa [Completion.isSuccess] using hs
      simp only [Completion.decides, herr, Bool.false_eq_true, if_false]
      intro hpost
      subst hpost
      rcases hshape with ⟨hdone, _, _⟩ | ⟨pre1, j, rest, ht, _, hj, _, _⟩
      · exact hdone
      · obtain ⟨_, h2⟩ := List.append_inj' ht rfl
        obtain rfl : i = j := by simpa using h2
        rw [hc] at hj
        simp [Completion.isSuccess, herr] at hj

/-- C14: a registration whose member named after the phase is absent or no
function is skipped: nothing is called, the world is as before, the iteratee
callback is invoked without error and the loop goes on with the next
registration. So a run is the same (calls, final state, outcome, value
returned) with and without a registration that has no function member for any
phase of the effective phase list. -/
theorem run_without_inert_extension {σ : Type} (self other : Bootstrapper σ)
    (a b : List (Plugin σ)) (x : Plugin σ) (process : Process)
    (context : Option Context) (done : Option Callback) (s : σ)
    (hself : self.plugins = a ++ x :: b) (hother : other.plugins = a ++ b)
    (hphases : other.phases = self.phases)
    (hinert : ∀ phase ∈ self.effectivePhases (contextOrEmpty context),
      ∀ m, x.handler.member phase ≠ .function m) :
    (∀ phase ∈ self.effectivePhases (contextOrEmpty context), ∀ (w : World σ)
        (rest : List (Plugin σ)),
      invokePlugin (contextOrEmpty context) phase x w = (.invoked .undefined .undefined, w) ∧
      eachSeries (fun plugin w => invokePlugin (contextOrEmpty context) phase plugin w)
          (x :: rest) w
        = eachSeries (fun plugin w => invokePlugin (contextOrEmpty context) phase plugin w)
          rest w) ∧
    (self.run process context done s).world = (other.run process context done s).world ∧
    (self.run process context done s).done = (other.run process context done s).done ∧
    (self.run process context done s).returned
      = (other.run process context done s).returned := by
  have hcall : ∀ phase ∈ self.effectivePhases (contextOrEmpty context),
      callOf (contextOrEmpty context) phase x = none := by
    intro phase hphase
    unfold callOf
    cases hm : x.handler.member phase with
    | absent => rfl
    | notCallable v => rfl
    | function m => exact absurd hm (hinert phase hphase m)
  have hskip : ∀ phase ∈ self.effectivePhases (contextOrEmpty context), ∀ w : World σ,
      invokePlugin (contextOrEmpty context) phase x w = (.invoked .undefined .undefined, w) :=
    fun phase hphase w => invokePlugin_skip _ _ _ (hcall phase hphase) w
  have heff : other.effectivePhases (contextOrEmpty context)
      = self.effectivePhases (contextOrEmpty context) := by
    simp [Bootstrapper.effectivePhases, hphases]
  have hloop : runPhases (contextOrEmpty context) (self.getExtensions "/boot".toList)
        (self.effectivePhases (contextOrEmpty context)) { state := s, trace := [] }
      = runPhases (contextOrEmpty context) (other.getExtensions "/boot".toList)
        (self.effectivePhases (contextOrEmpty context)) { state := s, trace := [] } := by
    unfold runPhases
    apply eachSeries_congr
    intro phase hphase w
    rw [getExtensions_eq_filter, getExtensions_eq_filter, hself, hother]
    simp only [List.filter_append, List.filter_cons]
    split
    · exact eachSeries_skip _ _ _ _ (hskip phase hphase) w
    · rfl
  have hrun : ∀ d : Option Callback, self.run process context d s
      = { self := { self with options := self.options.withDefaults process },
          returned := match d with
            | some callback => .value callback.promise
            | none => .promise (createPromiseCallback
                (runPhases (contextOrEmpty context) (self.getExtensions "/boot".toList)
                  (self.effectivePhases (contextOrEmpty context))
                  { state := s, trace := [] }).1),
          done := (runPhases (contextOrEmpty context) (self.getExtensions "/boot".toList)
            (self.effectivePhases (contextOrEmpty context)) { state := s, trace := [] }).1,
          world := (runPhases (contextOrEmpty context) (self.getExtensions "/boot".toList)
            (self.effectivePhases (contextOrEmpty context)) { state := s, trace := [] }).2 } :=
    fun _ => rfl
  have hrun2 : ∀ d : Option Callback, other.run process context d s
      = { self := { other with options := other.options.withDefaults process },
          returned := match d with
            | some callback => .value callback.promise
            | none => .promise (createPromiseCallback
                (runPhases (contextOrEmpty context) (other.getExtensions "/boot".toList)
                  (other.effectivePhases (contextOrEmpty context))
                  { state := s, trace := [] }).1),
          done := (runPhases (contextOrEmpty context) (other.getExtensions "/boot".toList)
            (other.effectivePhases (contextOrEmpty context)) { state := s, trace := [] }).1,
          world := (runPhases (contextOrEmpty context) (other.getExtensions "/boot".toList)
            (other.effectivePhases (contextOrEmpty context)) { state := s, trace := [] }).2 } :=
    fun _ => rfl
  refine ⟨?_, ?_, ?_, ?_⟩
  · intro phase hphase w rest
    refine ⟨hskip phase hphase w, ?_⟩
    simp [eachSeries, hskip phase hphase, Value.truthy]
  · rw [hrun, hrun2, heff, hloop]
  · rw [hrun, hrun2, heff, hloop]
  · rw [hrun, hrun2, heff, hloop]

/-- A witness of `run_without_inert_extension`: an extension without members
registered between the two extensions changes nothing. -/
theorem run_without_inert_extension_witness :
    (Example.withInert.run Example.process none none 0).world.trace.map
        (fun i => (i.plugin.path, i.phase))
      = [("/boot/ext1".toList, "load"), ("/boot/ext1".toList, "compile"),
         ("/boot/ext2".toList, "compile")] ∧
    (Example.withInert.run Example.process none none 0).world
      = (Example.twoExtensions.run Example.process none none 0).world :=
  ⟨by decide,
   (run_without_inert_extension Example.withInert Example.twoExtensions
      [Example.ext1 (Example.returning (.number 2))] [Example.ext2]
      { path := "/boot/inert".toList, handler := Example.plain }
      Example.process none none 0 rfl rfl rfl
      (fun _ _ m h => by simp [Example.plain, Example.handler] at h)).2.1⟩

/-- C15: every call `run` makes is on a registration of the registry that is a
direct child of `/boot`; handlers registered at `/boot`, `/boot/a/b`,
`/boota/x` and `/other/x` are not called even though they implement the phase.
The list of extensions is computed once, before the loops, and is the one the
loops use in every phase. -/
theorem run_calls_only_boot_children {σ : Type} (self : Bootstrapper σ) (process : Process)
    (context : Option Context) (done : Option Callback) (s : σ) :
    (∀ i ∈ (self.run process context done s).world.trace,
      i.plugin ∈ self.plugins ∧ i.plugin ∈ self.getExtensions "/boot".toList ∧
      isDirectChild "/boot/".toList i.plugin.path = true) ∧
    ((self.run process context done s).done, (self.run process context done s).world)
      = runPhases (contextOrEmpty context) (self.getExtensions "/boot".toList)
          (self.effectivePhases (contextOrEmpty context)) { state := s, trace := [] } ∧
    Example.elsewhere.plugins.map (fun r => r.path)
      = ["/boot".toList, "/boot/a/b".toList, "/boota/x".toList, "/other/x".toList] ∧
    (Example.elsewhere.run Example.process none none 0).world.trace.length = 0 ∧
    (Example.elsewhere.run Example.process none none 0).world.state = 0 := by
  refine ⟨?_, rfl, by decide, by decide, by decide⟩
  intro i hi
  have hmem := (mem_expectedCalls _ _ _ _
    (trace_mem_expectedCalls self process context done s i hi)).1
  have hmem1 : i.plugin ∈ self.getExtensions "/boot".toList := hmem
  have hmem2 := hmem1
  rw [getExtensions_eq_filter, List.mem_filter] at hmem2
  have hq : withTrailingSep "/boot".toList = "/boot/".toList := by decide
  rw [hq] at hmem2
  exact ⟨hmem2.1, hmem1, hmem2.2⟩

/-- C16, as stated, fails for a thenable rejected with a falsy reason: a
method with one declared parameter returns a promise rejected with `null`; the
iteratee callback gets `(null)`, which is a success, and the run is
fulfilled. -/
theorem rejection_with_null_is_success :
    (invokePlugin (contextOrEmpty none) "load"
        { path := "/boot/ext1".toList,
          handler := Example.handler [("load", Example.rejecting .null)] }
        { state := 0, trace := [] }).1
      = .invoked .null .undefined ∧
    (invokePlugin (contextOrEmpty none) "load"
        { path := "/boot/ext1".toList,
          handler := Example.handler [("load", Example.rejecting .null)] }
        { state := 0, trace := [] }).1.isFailure = false ∧
    ((Example.single (Example.rejecting .null)).run Example.process none none 0).world.trace.map
        (fun i => (i.plugin.path, i.phase, i.withCallback, i.effect))
      = [("/boot/ext1".toList, "load", false, .returns (.thenable (.rejected .null)) none)] ∧
    ((Example.single (Example.rejecting .null)).run Example.process none none 0).returned
      = .promise (.fulfilled .undefined) := by
  refine ⟨by decide, by decide, by decide, by decide⟩

/-- C16 (amended): every call `run` makes is a call of the member named after
the phase, with the context as first argument, and its style depends on the
`length` of that function only: with `length` 2 the callback is passed and the
outcome is what the method passes to it, whatever the method returns; with any
other `length` no callback is passed and the returned value decides: a
thenable that is chained as a promise is (its `then` returns an object with a
`catch` method) is awaited, its value going to `done(null, value)` and its
rejection reason to `done(reason)`; a thenable on which building the chain
throws fails the call at once with the value thrown; any other value goes to
`done(null, result)`. A thrown value goes to `done(e)` in both styles. The run
treats what `done` gets by the truthiness of its first argument: an error ends
the run with that error, silence stalls it, anything else lets it go on. -/
theorem call_style_by_length {σ : Type} (self : Bootstrapper σ) (process : Process)
    (context : Option Context) (done : Option Callback) (s : σ)
    (pre post : List (Invocation σ)) (i : Invocation σ)
    (htrace : (self.run process context done s).world.trace = pre ++ i :: post) :
    (∃ (m : Method σ) (s0 : σ), i.plugin.handler.member i.phase = .function m ∧
      i.withCallback = decide (m.length = 2) ∧ i.context = contextOrEmpty context ∧
      i.effect = (m.call (contextOrEmpty context) s0).1) ∧
    Completion.decides
      (match i.withCallback, i.effect with
        | _, .throws e => .invoked e .undefined
        | true, .returns _ (some (err, data)) => .invoked err data
        | true, .returns _ none => .never
        | false, .returns (.plain value) _ => .invoked .null value
        | false, .returns (.thenable (.fulfilled value)) _ => .invoked .null value
        | false, .returns (.thenable (.rejected reason)) _ => .invoked reason .undefined
        | false, .returns (.thenable .pending) _ => .never
        | false, .returns (.unchainable e) _ => .invoked e .undefined)
      (self.run process context done s).done post := by
  have hmem : i ∈ (self.run process context done s).world.trace := by rw [htrace]; simp
  refine ⟨run_isCallOfMember self process context done s i hmem, ?_⟩
  have hdec := run_decides self process context done s pre post i htrace
  have htable : (match i.withCallback, i.effect with
        | _, .throws e => Completion.invoked e .undefined
        | true, .returns _ (some (err, data)) => .invoked err data
        | true, .returns _ none => .never
        | false, .returns (.plain value) _ => .invoked .null value
        | false, .returns (.thenable (.fulfilled value)) _ => .invoked .null value
        | false, .returns (.thenable (.rejected reason)) _ => .invoked reason .undefined
        | false, .returns (.thenable .pending) _ => .never
        | false, .returns (.unchainable e) _ => .invoked e .undefined) = i.completion := by
    unfold Invocation.completion settle
    cases i.withCallback <;> cases i.effect with
    | throws e => rfl
    | returns r cb =>
      first
        | (cases r with
            | plain v => rfl
            | thenable t => cases t <;> rfl
            | unchainable e => rfl)
        | (cases cb with
            | none => rfl
            | some p => rfl)
  rw [htable]
  exact hdec

/-- A witness of `call_style_by_length`: the only method has two declared
parameters, returns a rejected promise and calls back with `(null, 5)`; it is
called with the callback and the run succeeds. -/
theorem call_style_by_length_witness :
    ((Example.single (Example.callingBackWhileRejected (.number 5))).run Example.process
        none none 0).world.trace.map (fun i => (i.plugin.path, i.phase, i.withCallback, i.effect))
      = [("/boot/ext1".toList, "load", true,
          .returns (.thenable (.rejected (.object 9))) (some (.null, .number 5)))] ∧
    Completion.decides (Completion.invoked .null (.number 5))
      ((Example.single (Example.callingBackWhileRejected (.number 5))).run Example.process
        none none 0).done ([] : List (Invocation Nat)) ∧
    ((Example.single (Example.callingBackWhileRejected (.number 5))).run Example.process
        none none 0).returned = .promise (.fulfilled .undefined) ∧
    ((Example.single (Example.returningUnchainable (.object 13))).run Example.process
        none none 0).world.trace.map (fun i => (i.plugin.path, i.phase, i.withCallback, i.effect))
      = [("/boot/ext1".toList, "load", false, .returns (.unchainable (.object 13)) none)] ∧
    ((Example.single (Example.returningUnchainable (.object 13))).run Example.process
        none none 0).returned = .promise (.rejected (.object 13)) :=
  ⟨by decide,
   (call_style_by_length (Example.single (Example.callingBackWhileRejected (.number 5)))
      Example.process none none 0 [] []
      { plugin := { path := "/boot/ext1".toList,
                    handler := Example.handler
                      [("load", Example.callingBackWhileRejected (.number 5))] },
        phase := "load", context := contextOrEmpty none, withCallback := true,
        effect := .returns (.thenable (.rejected (.object 9))) (some (.null, .number 5)) }
      rfl).2,
   by decide, by decide, by decide⟩

/-- C17: when a run reaches a method that was given the callback and that
neither calls it nor throws, no call follows, the callback of the run is never
invoked and the promise of the run stays pending. -/
theorem run_stalls_on_silent_callback {σ : Type} (self : Bootstrapper σ) (process : Process)
    (context : Option Context) (done : Option Callback) (s : σ)
    (pre post : List (Invocation σ)) (i : Invocation σ) (result : Returned)
    (htrace : (self.run process context done s).world.trace = pre ++ i :: post)
    (hstyle : i.withCallback = true) (hsilent : i.effect = .returns result none) :
    post = [] ∧ (self.run process context done s).done = .never ∧
      (self.run process context none s).returned = .promise .pending ∧
      (∀ j ∈ pre, j.completion.isSuccess = true) := by
  have hc : i.completion = .never := by
    simp [Invocation.completion, hstyle, hsilent, settle]
  have hshape := run_shape self process context done s
  rw [htrace] at hshape
  obtain ⟨hpost, hpre, hdone, _⟩ :=
    hshape.last_of_not_success (by simp [hc, Completion.isSuccess])
  rw [hc] at hdone
  have hnone : (self.run process context none s).returned
      = .promise (createPromiseCallback (self.run process context done s).done) := rfl
  refine ⟨hpost, ?_, ?_, hpre⟩
  · simpa [Completion.errorOnly] using hdone
  · rw [hnone, hdone]; rfl

/-- A witness of `run_stalls_on_silent_callback`: `compile` of extension 1
takes the callback and never calls it; `compile` of extension 2 is not called
and the promise stays pending. -/
theorem run_stalls_on_silent_callback_witness :
    ((Example.withCompile (Example.hanging (.plain .undefined))).run Example.process none none
        0).world.trace.map (fun i => (i.plugin.path, i.phase, i.withCallback))
      = [("/boot/ext1".toList, "load", false), ("/boot/ext1".toList, "compile", true)] ∧
    ((Example.withCompile (Example.hanging (.plain .undefined))).run Example.process none none
        0).returned = .promise .pending :=
  ⟨by decide,
   (run_stalls_on_silent_callback (Example.withCompile (Example.hanging (.plain .undefined)))
      Example.process none none 0
      [Example.ext1Load (Example.hanging (.plain .undefined))] []
      { plugin := Example.ext1 (Example.hanging (.plain .undefined)), phase := "compile",
        context := contextOrEmpty none, withCallback := true,
        effect := .returns (.plain .undefined) none }
      (.plain .undefined) rfl rfl rfl).2.2.1⟩

/-- C18: `run` leaves the registry and the phase list of the engine as they
were, whatever the context, the delivery style and the outcome; `getPlugins`
and `getExtensions` are functions of the engine that return a selection of the
registry in its order. -/
theorem run_and_queries_frame {σ : Type} (self : Bootstrapper σ) (process : Process)
    (context : Option Context) (done : Option Callback) (s : σ) (path : JSString) :
    (self.run process context done s).self.plugins = self.plugins ∧
    (self.run process context done s).self.phases = self.phases ∧
    (self.getPlugins path).Sublist self.plugins ∧
    (self.getExtensions path).Sublist self.plugins ∧
    ((self.run process context done s).self.getPlugins path = self.getPlugins path) ∧
    ((self.run process context done s).self.getExtensions path = self.getExtensions path) := by
  refine ⟨rfl, rfl, ?_, ?_, rfl, rfl⟩
  · exact List.filter_sublist _
  · exact List.filter_sublist _

/-- C20: for a path that does not end in `'/'`, the empty string included,
`getPlugins` and `getExtensions` give the same result for the path and for the
path followed by `'/'`; a path that ends in `'/'` is used as it is, so the
normalization applied twice is the normalization. -/
theorem queries_normalize_path {σ : Type} (self : Bootstrapper σ) (p : JSString)
    (hp : p.getLast? ≠ some sep) :
    self.getPlugins p = self.getPlugins (p ++ [sep]) ∧
    self.getExtensions p = self.getExtensions (p ++ [sep]) ∧
    withTrailingSep (p ++ [sep]) = p ++ [sep] ∧
    withTrailingSep p = p ++ [sep] ∧
    (∀ q : JSString, withTrailingSep (withTrailingSep q) = withTrailingSep q) ∧
    (∀ q : JSString, q.getLast? = some sep → withTrailingSep q = q) := by
  have h1 : withTrailingSep (p ++ [sep]) = p ++ [sep] := by simp [withTrailingSep]
  have h2 : withTrailingSep p = p ++ [sep] := by simp [withTrailingSep, hp]
  have h3 : ∀ q : JSString, q.getLast? = some sep → withTrailingSep q = q := by
    intro q hq; simp [withTrailingSep, hq]
  refine ⟨?_, ?_, h1, h2, fun q => h3 _ (withTrailingSep_getLast q), h3⟩
  · simp only [Bootstrapper.getPlugins, h1, h2]
  · simp only [Bootstrapper.getExtensions, h1, h2]

/-- A witness of `queries_normalize_path`: `/boot` and `/boot/`. -/
theorem queries_normalize_path_witness :
    "/boot".toList.getLast? ≠ some sep ∧
    (Example.children.getExtensions "/boot".toList).map (fun r => r.path)
      = (Example.children.getExtensions "/boot/".toList).map (fun r => r.path) ∧
    Example.children.getPlugins "/boot".toList
      = Example.children.getPlugins ("/boot".toList ++ [sep]) :=
  ⟨by decide, by decide,
   (queries_normalize_path Example.children "/boot".toList (by decide)).1⟩

end LoopbackBoot
